import Mathlib

/-!
Verification of the Confidence-Aware Google-Workspace assistant.

Shallow embedding of the repository's Python source in Lean 4.  Python
text is modelled as `List Char` where character indexing matters
(`src/src/utils/text_processing.py`) and as `String` elsewhere; Python
dicts are association lists with overwrite-on-insert; machine-level
nondeterminism (LLM responses, regular-expression engine, wall clock,
uuid generation) is abstracted as oracle parameters; code that can raise
is modelled with `Except`/`Option`.
-/

namespace WorkspaceAgent

/-- Python dict insertion: replace the binding in place when the key is
present, otherwise append at the end (insertion order preserved). -/
def dictInsert {α : Type} (m : List (String × α)) (k : String) (v : α) :
    List (String × α) :=
  match m with
  | [] => [(k, v)]
  | (k', v') :: rest =>
      if k' = k then (k, v) :: rest else (k', v') :: dictInsert rest k v

/-- Python dict lookup (`m.get(k)`). -/
def dictGet? {α : Type} (m : List (String × α)) (k : String) : Option α :=
  match m with
  | [] => none
  | (k', v') :: rest => if k' = k then some v' else dictGet? rest k

/-!
## Text processing (`src/src/utils/text_processing.py`)

`chunk_text` works by character index, so text is modelled as `List Char`.
The translation keeps indices in `Nat`: in the regime the theorems assume
(`overlap + 100 ≤ chunk_size`, satisfied by both configurations the system
uses, 1000/200 and 1200/150) every index that arises in the Python code is
non-negative, so `Nat` and Python `int` agree.
-/

/-- Python `text.find('.', a, b)`: index of the first `'.'` at a position
`p` with `a ≤ p < b` (and `p` inside the text), `-1` rendered as `none`. -/
def pyFindDot (text : List Char) (a b : Nat) : Option Nat :=
  go text 0
where
  go : List Char → Nat → Option Nat
    | [], _ => none
    | c :: rest, i =>
        if a ≤ i ∧ i < b ∧ c = '.' then some i else go rest (i + 1)

/-- Python slice `text[s:e]` for non-negative `s ≤ e`. -/
def pySlice (text : List Char) (s e : Nat) : List Char :=
  (text.drop s).take (e - s)

/-- Python `str.strip()`: drop leading and trailing whitespace. -/
def pyStrip (s : List Char) : List Char :=
  ((s.dropWhile Char.isWhitespace).reverse.dropWhile Char.isWhitespace).reverse

/-- The window end computed by one `chunk_text` loop iteration:
`end = start + chunk_size`, nudged to just past the nearest `'.'` found in
`[end - 100, end + 100)` while `end` is still inside the text
(`text_processing.py`, lines 84-92). -/
def windowEnd (text : List Char) (chunkSize start : Nat) : Nat :=
  let endRaw := start + chunkSize
  if endRaw < text.length then
    match pyFindDot text (endRaw - 100) (endRaw + 100) with
    | some p => p + 1
    | none => endRaw
  else endRaw

/-- The `while start < len(text)` loop of `chunk_text`
(`text_processing.py`, lines 84-99), with explicit fuel; `none` means the
fuel ran out (`C9` below shows `text.length + 1` fuel always suffices in
the assumed regime). -/
def chunkTextAux (text : List Char) (chunkSize overlap : Nat) :
    Nat → Nat → Option (List (List Char))
  | 0, _ => none
  | fuel + 1, start =>
      if start < text.length then
        let e := windowEnd text chunkSize start
        let chunk := pyStrip (pySlice text start e)
        match chunkTextAux text chunkSize overlap fuel (e - overlap) with
        | none => none
        | some rest => some (if chunk.isEmpty then rest else chunk :: rest)
      else some []

/-- `chunk_text` (`text_processing.py`, lines 66-100). -/
def chunk_text (text : List Char) (chunkSize : Nat := 1000)
    (overlap : Nat := 200) : List (List Char) :=
  if text.isEmpty ∨ text.length ≤ chunkSize then
    if text.isEmpty then [] else [text]
  else
    (chunkTextAux text chunkSize overlap (text.length + 1) 0).getD []

/-- Analysis helper: the `(start, end)` windows the `chunk_text` loop
visits, mirroring the recursion of `chunkTextAux`. -/
def chunkWindows (text : List Char) (chunkSize overlap : Nat) :
    Nat → Nat → List (Nat × Nat)
  | 0, _ => []
  | fuel + 1, start =>
      if start < text.length then
        let e := windowEnd text chunkSize start
        (start, e) :: chunkWindows text chunkSize overlap fuel (e - overlap)
      else []

/-- "Concatenating consecutive chunks' non-overlapping regions": the first
chunk whole, then every later chunk with its first `overlap` characters
(the part shared with its predecessor) removed. -/
def joinChunks (overlap : Nat) : List (List Char) → List Char
  | [] => []
  | c :: cs => c ++ (cs.map (List.drop overlap)).flatten

theorem pyFindDot_go_bounds {a b : Nat} {p : Nat} :
    ∀ (l : List Char) (i : Nat), pyFindDot.go a b l i = some p →
      a ≤ p ∧ p < b ∧ i ≤ p ∧ p < i + l.length := by
  intro l
  induction l with
  | nil => intro i h; simp [pyFindDot.go] at h
  | cons c rest ih =>
      intro i h
      by_cases hc : a ≤ i ∧ i < b ∧ c = '.'
      · simp [pyFindDot.go, hc] at h
        subst h
        exact ⟨hc.1, hc.2.1, Nat.le_refl _, by simp⟩
      · simp [pyFindDot.go, hc] at h
        obtain ⟨h1, h2, h3, h4⟩ := ih (i + 1) h
        refine ⟨h1, h2, Nat.le_of_succ_le h3, ?_⟩
        simp only [List.length_cons]
        omega

theorem pyFindDot_bounds {text : List Char} {a b p : Nat}
    (h : pyFindDot text a b = some p) :
    a ≤ p ∧ p < b ∧ p < text.length := by
  obtain ⟨h1, h2, _, h4⟩ := pyFindDot_go_bounds text 0 h
  exact ⟨h1, h2, by simpa using h4⟩

/-- The window end never falls more than 99 characters short of the raw
boundary `start + chunk_size`. -/
theorem windowEnd_lower (text : List Char) (chunkSize start : Nat) :
    start + chunkSize ≤ windowEnd text chunkSize start + 99 := by
  unfold windowEnd
  by_cases hlt : start + chunkSize < text.length
  · simp only [hlt, if_true]
    cases hfind : pyFindDot text (start + chunkSize - 100) (start + chunkSize + 100) with
    | none => simp
    | some p =>
        have := (pyFindDot_bounds hfind).1
        simp only []
        omega
  · simp [hlt]

/-- The window end never overshoots the raw boundary by more than 100. -/
theorem windowEnd_upper (text : List Char) (chunkSize start : Nat) :
    windowEnd text chunkSize start ≤ start + chunkSize + 100 := by
  unfold windowEnd
  by_cases hlt : start + chunkSize < text.length
  · simp only [hlt, if_true]
    cases hfind : pyFindDot text (start + chunkSize - 100) (start + chunkSize + 100) with
    | none => simp
    | some p =>
        have := (pyFindDot_bounds hfind).2.1
        simp only []
        omega
  · simp [hlt]

/-- While the raw boundary lies inside the text, the (possibly nudged)
window end stays inside the text as well. -/
theorem windowEnd_le_length (text : List Char) (chunkSize start : Nat)
    (hlt : start + chunkSize < text.length) :
    windowEnd text chunkSize start ≤ text.length := by
  unfold windowEnd
  simp only [hlt, if_true]
  cases hfind : pyFindDot text (start + chunkSize - 100) (start + chunkSize + 100) with
  | none => simpa using Nat.le_of_lt hlt
  | some p =>
      have := (pyFindDot_bounds hfind).2.2
      simp only []
      omega

/-- Each loop iteration strictly advances the window start. -/
theorem windowEnd_progress (text : List Char) (chunkSize overlap start : Nat)
    (h : overlap + 100 ≤ chunkSize) :
    start < windowEnd text chunkSize start - overlap := by
  have hlow := windowEnd_lower text chunkSize start
  omega

/-- With enough fuel, the loop's result is exactly the per-window stripped
slices, with empty chunks dropped (`if chunk: chunks.append(chunk)`). -/
theorem chunkTextAux_eq_windows (text : List Char) (chunkSize overlap : Nat)
    (h : overlap + 100 ≤ chunkSize) :
    ∀ (fuel start : Nat), text.length - start < fuel →
      chunkTextAux text chunkSize overlap fuel start =
        some (((chunkWindows text chunkSize overlap fuel start).map
          (fun w => pyStrip (pySlice text w.1 w.2))).filter
            (fun c => !c.isEmpty)) := by
  intro fuel
  induction fuel with
  | zero => intro start hf; omega
  | succ n ih =>
      intro start hf
      by_cases hs : start < text.length
      · have hprog := windowEnd_progress text chunkSize overlap start h
        have hrec := ih (windowEnd text chunkSize start - overlap) (by omega)
        simp only [chunkTextAux, chunkWindows, hs, if_true, hrec, List.map_cons,
          List.filter_cons]
        by_cases he :
            (pyStrip (pySlice text start (windowEnd text chunkSize start))).isEmpty
        · simp [he]
        · simp [he]
      · simp [chunkTextAux, chunkWindows, hs]

/-- The loop visits at most one window per remaining character. -/
theorem chunkWindows_length_le (text : List Char) (chunkSize overlap : Nat)
    (h : overlap + 100 ≤ chunkSize) :
    ∀ (fuel start : Nat),
      (chunkWindows text chunkSize overlap fuel start).length ≤
        text.length - start := by
  intro fuel
  induction fuel with
  | zero => intro start; simp [chunkWindows]
  | succ n ih =>
      intro start
      by_cases hs : start < text.length
      · have hprog := windowEnd_progress text chunkSize overlap start h
        have hrec := ih (windowEnd text chunkSize start - overlap)
        simp only [chunkWindows, hs, if_true, List.length_cons]
        omega
      · simp [chunkWindows, hs]

/-- Every visited window starts inside the text and ends at the nudged
boundary for its start. -/
theorem chunkWindows_mem (text : List Char) (chunkSize overlap : Nat) :
    ∀ (fuel start : Nat) (w : Nat × Nat),
      w ∈ chunkWindows text chunkSize overlap fuel start →
      w.1 < text.length ∧ w.2 = windowEnd text chunkSize w.1 := by
  intro fuel
  induction fuel with
  | zero => intro start w hw; simp [chunkWindows] at hw
  | succ n ih =>
      intro start w hw
      by_cases hs : start < text.length
      · simp only [chunkWindows, hs, if_true, List.mem_cons] at hw
        rcases hw with hw | hw
        · subst hw; exact ⟨hs, rfl⟩
        · exact ih _ w hw
      · simp [chunkWindows, hs] at hw

theorem length_dropWhile_le {α : Type} (p : α → Bool) (l : List α) :
    (l.dropWhile p).length ≤ l.length := by
  induction l with
  | nil => simp
  | cons a l ih =>
      rw [List.dropWhile_cons]
      by_cases hp : p a = true
      · simp only [hp, if_true]
        exact Nat.le_trans ih (by simp)
      · simp [hp]

theorem pyStrip_length_le (s : List Char) : (pyStrip s).length ≤ s.length := by
  unfold pyStrip
  calc ((s.dropWhile Char.isWhitespace).reverse.dropWhile
          Char.isWhitespace).reverse.length
      = ((s.dropWhile Char.isWhitespace).reverse.dropWhile
          Char.isWhitespace).length := List.length_reverse _
    _ ≤ (s.dropWhile Char.isWhitespace).reverse.length :=
        length_dropWhile_le _ _
    _ = (s.dropWhile Char.isWhitespace).length := List.length_reverse _
    _ ≤ s.length := length_dropWhile_le _ _

theorem pySlice_length_le (text : List Char) (s e : Nat) :
    (pySlice text s e).length ≤ e - s := by
  unfold pySlice
  simp only [List.length_take, List.length_drop]
  exact Nat.min_le_left _ _

/-- A window slice is non-empty: the window starts inside the text and
spans at least one character. -/
theorem pySlice_window_ne_nil (text : List Char) (chunkSize overlap s : Nat)
    (h : overlap + 100 ≤ chunkSize) (hs : s < text.length) :
    pySlice text s (windowEnd text chunkSize s) ≠ [] := by
  have hlow := windowEnd_lower text chunkSize s
  intro hnil
  have hlen : (pySlice text s (windowEnd text chunkSize s)).length = 0 := by
    rw [hnil]; rfl
  unfold pySlice at hlen
  rw [List.length_take, List.length_drop] at hlen
  omega

/-- Dropping the overlap from each window slice past the first yields the
tail of the text beyond `start + overlap`. -/
theorem chunkWindows_flatten_drop (text : List Char) (chunkSize overlap : Nat)
    (h : overlap + 100 ≤ chunkSize) :
    ∀ (fuel start : Nat), text.length - start < fuel →
      ((chunkWindows text chunkSize overlap fuel start).map
        (fun w => (pySlice text w.1 w.2).drop overlap)).flatten =
      text.drop (start + overlap) := by
  intro fuel
  induction fuel with
  | zero => intro start hf; omega
  | succ n ih =>
      intro start hf
      by_cases hs : start < text.length
      · have hprog := windowEnd_progress text chunkSize overlap start h
        have hlow := windowEnd_lower text chunkSize start
        set e := windowEnd text chunkSize start with he
        have hrec := ih (e - overlap) (by omega)
        simp only [chunkWindows, hs, if_true, List.map_cons, List.flatten_cons,
          hrec]
        have hov : e - overlap + overlap = e := by omega
        rw [hov]
        have hslice : (pySlice text start e).drop overlap =
            (text.drop (start + overlap)).take (e - (start + overlap)) := by
          unfold pySlice
          rw [List.drop_take, List.drop_drop]
          congr 1
          omega
        rw [hslice]
        have hdrop : text.drop e =
            (text.drop (start + overlap)).drop (e - (start + overlap)) := by
          rw [List.drop_drop]
          congr 1
          omega
        rw [hdrop, List.take_append_drop]
      · have hempty : chunkWindows text chunkSize overlap (n + 1) start = [] := by
          simp [chunkWindows, hs]
        rw [hempty]
        have hle : text.length ≤ start + overlap := by omega
        simp only [List.map_nil, List.flatten_nil]
        rw [List.drop_eq_nil_of_le hle]

/-- When stripping is a no-op on every window, joining the chunks'
non-overlapping regions rebuilds the whole text. -/
theorem joinChunks_chunk_text (text : List Char) (chunkSize overlap : Nat)
    (h : overlap + 100 ≤ chunkSize) (hlen : chunkSize < text.length)
    (hstrip : ∀ w ∈ chunkWindows text chunkSize overlap (text.length + 1) 0,
      pyStrip (pySlice text w.1 w.2) = pySlice text w.1 w.2) :
    joinChunks overlap (chunk_text text chunkSize overlap) = text := by
  have hpos : 0 < text.length := by omega
  have hne : ¬(text.isEmpty ∨ text.length ≤ chunkSize) := by
    push_neg
    constructor
    · simp [List.isEmpty_iff]
      intro hnil
      rw [hnil] at hpos
      simp at hpos
    · omega
  have haux := chunkTextAux_eq_windows text chunkSize overlap h
    (text.length + 1) 0 (by omega)
  have hmap : (chunkWindows text chunkSize overlap (text.length + 1) 0).map
      (fun w => pyStrip (pySlice text w.1 w.2)) =
      (chunkWindows text chunkSize overlap (text.length + 1) 0).map
      (fun w => pySlice text w.1 w.2) :=
    List.map_congr_left hstrip
  have hfilter : ((chunkWindows text chunkSize overlap
        (text.length + 1) 0).map (fun w => pySlice text w.1 w.2)).filter
        (fun c => !c.isEmpty) =
      (chunkWindows text chunkSize overlap (text.length + 1) 0).map
        (fun w => pySlice text w.1 w.2) := by
    apply List.filter_eq_self.mpr
    intro c hc
    obtain ⟨w, hw, hcw⟩ := List.mem_map.mp hc
    obtain ⟨hw1, hw2⟩ := chunkWindows_mem text chunkSize overlap _ _ w hw
    have hne' : pySlice text w.1 w.2 ≠ [] := by
      rw [hw2]
      exact pySlice_window_ne_nil text chunkSize overlap w.1 h hw1
    rw [hcw] at hne'
    simpa [List.isEmpty_iff] using hne'
  have hchunk : chunk_text text chunkSize overlap =
      (chunkWindows text chunkSize overlap (text.length + 1) 0).map
        (fun w => pySlice text w.1 w.2) := by
    unfold chunk_text
    rw [if_neg hne, haux, Option.getD_some, hmap, hfilter]
  rw [hchunk]
  have hhead : chunkWindows text chunkSize overlap (text.length + 1) 0 =
      (0, windowEnd text chunkSize 0) ::
        chunkWindows text chunkSize overlap text.length
          (windowEnd text chunkSize 0 - overlap) := by
    conv_lhs => rw [chunkWindows]
    rw [if_pos hpos]
  rw [hhead]
  have hprog := windowEnd_progress text chunkSize overlap 0 h
  have hlow := windowEnd_lower text chunkSize 0
  set e0 := windowEnd text chunkSize 0 with he0
  have hflat := chunkWindows_flatten_drop text chunkSize overlap h
    text.length (e0 - overlap) (by omega)
  have hov : e0 - overlap + overlap = e0 := by omega
  rw [hov] at hflat
  simp only [joinChunks, List.map_cons, List.map_map]
  have hcomp : ((chunkWindows text chunkSize overlap text.length
        (e0 - overlap)).map
          ((fun l => List.drop overlap l) ∘ fun w => pySlice text w.1 w.2)) =
      (chunkWindows text chunkSize overlap text.length (e0 - overlap)).map
        (fun w => (pySlice text w.1 w.2).drop overlap) := rfl
  rw [hcomp, hflat]
  unfold pySlice
  simp only [List.drop_zero, Nat.sub_zero]
  exact List.take_append_drop e0 text

/-- C4: for texts no longer than the chunk size, `chunk_text` returns the
input whole (empty text gives no chunks); for longer texts every chunk
stays within `chunk_size + 100` characters, and — because each chunk is
`strip()`ped — joining the chunks' non-overlapping regions rebuilds the
text whenever no window of the loop carries leading or trailing
whitespace. -/
theorem C4_chunk_text_chunks (text : List Char) (chunkSize overlap : Nat)
    (h : overlap + 100 ≤ chunkSize) :
    (text.length ≤ chunkSize →
        chunk_text text chunkSize overlap =
          if text.isEmpty then [] else [text])
    ∧ (∀ c ∈ chunk_text text chunkSize overlap, c.length ≤ chunkSize + 100)
    ∧ ((∀ w ∈ chunkWindows text chunkSize overlap (text.length + 1) 0,
          pyStrip (pySlice text w.1 w.2) = pySlice text w.1 w.2) →
        chunkSize < text.length →
        joinChunks overlap (chunk_text text chunkSize overlap) = text) := by
  refine ⟨?_, ?_, ?_⟩
  · intro hle
    unfold chunk_text
    rw [if_pos (Or.inr hle)]
  · intro c hc
    by_cases hsmall : text.isEmpty ∨ text.length ≤ chunkSize
    · unfold chunk_text at hc
      rw [if_pos hsmall] at hc
      by_cases hemp : text.isEmpty
      · simp [hemp] at hc
      · rw [if_neg hemp] at hc
        have hle : text.length ≤ chunkSize := by
          rcases hsmall with hs | hs
          · exact absurd hs hemp
          · exact hs
        simp only [List.mem_singleton] at hc
        subst hc
        omega
    · unfold chunk_text at hc
      rw [if_neg hsmall,
        chunkTextAux_eq_windows text chunkSize overlap h (text.length + 1) 0
          (by omega), Option.getD_some] at hc
      have hc' := List.mem_of_mem_filter hc
      obtain ⟨w, hw, hcw⟩ := List.mem_map.mp hc'
      obtain ⟨hw1, hw2⟩ := chunkWindows_mem text chunkSize overlap _ _ w hw
      have hub : w.2 ≤ w.1 + chunkSize + 100 := by
        rw [hw2]
        exact windowEnd_upper text chunkSize w.1
      calc c.length = (pyStrip (pySlice text w.1 w.2)).length := by rw [hcw]
        _ ≤ (pySlice text w.1 w.2).length := pyStrip_length_le _
        _ ≤ w.2 - w.1 := pySlice_length_le text w.1 w.2
        _ ≤ chunkSize + 100 := by omega
  · intro hstrip hlen
    exact joinChunks_chunk_text text chunkSize overlap h hlen hstrip

set_option maxRecDepth 100000 in
/-- C4 counterexample: with a space at a window boundary the chunks are
stripped, so joining the non-overlapping regions loses that space and does
not rebuild the input (the claim's reconstruction property fails). -/
theorem C4_counterexample :
    joinChunks 0 (chunk_text
        (List.replicate 99 'a' ++ [' '] ++ List.replicate 50 'b') 100 0) ≠
      List.replicate 99 'a' ++ [' '] ++ List.replicate 50 'b' := by decide

/-- C4 witness: at concrete inputs, a short text comes back as one chunk and
a whitespace-free long text is rebuilt by joining non-overlapping regions. -/
theorem C4_witness :
    0 + 100 ≤ 100 ∧
    chunk_text (List.replicate 50 'a') 100 0 = [List.replicate 50 'a'] ∧
    joinChunks 0 (chunk_text (List.replicate 150 'a') 100 0) =
      List.replicate 150 'a' := by
  refine ⟨by decide, ?_, ?_⟩
  · have h50 := (C4_chunk_text_chunks (List.replicate 50 'a') 100 0
      (by decide)).1 (by decide)
    simpa using h50
  · exact (C4_chunk_text_chunks (List.replicate 150 'a') 100 0
      (by decide)).2.2 (by decide) (by decide)

/-- C9: whenever `overlap ≤ chunk_size - 100` (both configurations the
system uses satisfy this) the `chunk_text` loop runs to completion within
`text.length + 1` iterations, each iteration strictly advances the window
start, and the number of chunks produced is at most the text length. -/
theorem C9_chunk_text_terminates (text : List Char) (chunkSize overlap : Nat)
    (h : overlap + 100 ≤ chunkSize) :
    (chunkTextAux text chunkSize overlap (text.length + 1) 0).isSome
    ∧ (chunk_text text chunkSize overlap).length ≤ text.length
    ∧ (∀ start, start < text.length →
        start < windowEnd text chunkSize start - overlap) := by
  refine ⟨?_, ?_, ?_⟩
  · rw [chunkTextAux_eq_windows text chunkSize overlap h (text.length + 1) 0
      (by omega)]
    rfl
  · by_cases hsmall : text.isEmpty ∨ text.length ≤ chunkSize
    · unfold chunk_text
      rw [if_pos hsmall]
      by_cases hemp : text.isEmpty
      · simp [hemp]
      · rw [if_neg hemp]
        have : text.length ≠ 0 := by
          simpa [List.isEmpty_iff, List.length_eq_zero] using hemp
        simp only [List.length_singleton]
        omega
    · unfold chunk_text
      rw [if_neg hsmall,
        chunkTextAux_eq_windows text chunkSize overlap h (text.length + 1) 0
          (by omega), Option.getD_some]
      calc (((chunkWindows text chunkSize overlap (text.length + 1) 0).map
              (fun w => pyStrip (pySlice text w.1 w.2))).filter
                (fun c => !c.isEmpty)).length
          ≤ ((chunkWindows text chunkSize overlap (text.length + 1) 0).map
              (fun w => pyStrip (pySlice text w.1 w.2))).length :=
            List.length_filter_le _ _
        _ = (chunkWindows text chunkSize overlap
              (text.length + 1) 0).length := List.length_map _ _
        _ ≤ text.length - 0 :=
            chunkWindows_length_le text chunkSize overlap h _ 0
        _ ≤ text.length := by omega
  · intro start _
    exact windowEnd_progress text chunkSize overlap start h

/-- C9 witness: the default configuration (1000/200) on a 1001-character
text satisfies the hypothesis and the loop result is defined. -/
theorem C9_witness :
    200 + 100 ≤ 1000 ∧
    (chunkTextAux (List.replicate 1001 'a') 1000 200
      ((List.replicate 1001 'a').length + 1) 0).isSome := by
  refine ⟨by decide, ?_⟩
  exact (C9_chunk_text_terminates (List.replicate 1001 'a') 1000 200
    (by decide)).1

/-!
## Shared string helpers (Python primitives)
-/

/-- `needle` is a prefix of `hay` (helper for Python `in`). -/
def isPrefixL (needle hay : List Char) : Bool :=
  match needle, hay with
  | [], _ => true
  | _ :: _, [] => false
  | n :: ns, h :: hs => n == h && isPrefixL ns hs

/-- Substring occurrence on character lists. -/
def containsL (hay needle : List Char) : Bool :=
  match hay with
  | [] => needle.isEmpty
  | h :: hs => isPrefixL needle (h :: hs) || containsL hs needle

/-- Python `needle in hay` on strings. -/
def strContains (hay needle : String) : Bool :=
  containsL hay.toList needle.toList

/-- Python `len(s.split())`: number of maximal whitespace-free runs. -/
def pyWordCount (s : String) : Nat :=
  (s.toList.foldl
    (fun (st : Nat × Bool) c =>
      if c.isWhitespace then (st.1, false)
      else if st.2 then st else (st.1 + 1, true))
    (0, false)).1

/-- Python `s[:n]` on strings. -/
def pyTakeStr (s : String) (n : Nat) : String :=
  String.mk (s.toList.take n)

/-!
## Conversation memory (`src/src/memory/conversation_memory.py`)
-/

structure ChatMessage where
  role : String
  content : String
  timestamp : String
deriving DecidableEq

structure ConversationMemoryState where
  messages : List ChatMessage
  summary : Option String
  message_count : Nat
deriving DecidableEq

/-- `ConversationMemory.__init__`: empty history, no summary, count 0. -/
def initialConversationMemory : ConversationMemoryState :=
  { messages := [], summary := none, message_count := 0 }

/-- `ConversationMemory.add_message` (`conversation_memory.py`, lines
25-44).  The method appends the message, increments the live count, and
then — once the count has reached the threshold — evaluates
`self._summarize_and_compress()`.  `_summarize_and_compress` is declared
`async def` while `add_message` is a plain synchronous method, so that
call only constructs a coroutine object which is discarded without ever
being awaited: its body never runs and the state is left uncompacted.
The embedding therefore returns the appended state on both sides of the
threshold check. -/
def add_message (threshold : Nat) (st : ConversationMemoryState)
    (role content now : String) : ConversationMemoryState :=
  let appended : ConversationMemoryState :=
    { messages := st.messages ++ [⟨role, content, now⟩]
      summary := st.summary
      message_count := st.message_count + 1 }
  if threshold ≤ appended.message_count then
    appended
  else appended

/-- The summarization prompt built by `_summarize_and_compress`. -/
def summarizePrompt (conversationText : String) : String :=
  "Summarize the following conversation, focusing on:\n" ++
  "1. Key topics discussed\n2. Important information shared\n" ++
  "3. User preferences or patterns\n4. Any pending tasks or follow-ups\n\n" ++
  "Conversation:\n" ++ conversationText ++
  "\n\nProvide a concise summary (max 500 words):"

/-- The merge prompt built when a prior summary exists. -/
def combinePrompt (prev newSummary : String) : String :=
  "Previous summary: " ++ prev ++ "\n\nNew conversation summary: " ++
  newSummary ++ "\n\nProvide a unified summary that combines both:"

/-- The state transformation the body of `_summarize_and_compress`
(`conversation_memory.py`, lines 82-149) performs when its coroutine is
actually awaited; `llm` abstracts `AzureOpenAIClient.generate_response`. -/
def summarize_and_compress (threshold : Nat) (llm : String → String)
    (st : ConversationMemoryState) : ConversationMemoryState :=
  if st.messages.length < threshold then st
  else
    let splitPoint := st.messages.length - 10
    let oldMessages := st.messages.take splitPoint
    let recentMessages := st.messages.drop splitPoint
    let conversationText := String.intercalate "\n\n"
      (oldMessages.map (fun m => m.role.toUpper ++ ": " ++ m.content))
    let newSummary := llm (summarizePrompt conversationText)
    let summaryOut := match st.summary with
      | some prev => llm (combinePrompt prev newSummary)
      | none => newSummary
    { messages := recentMessages
      summary := some summaryOut
      message_count := recentMessages.length }

/-- Awaited compaction really would retain the last 10 messages and set a
summary — showing the intent the unawaited call fails to realize. -/
theorem summarize_and_compress_compacts (threshold : Nat)
    (llm : String → String) (st : ConversationMemoryState)
    (hth : threshold ≤ st.messages.length) (h10 : 10 ≤ st.messages.length) :
    (summarize_and_compress threshold llm st).messages.length = 10 ∧
    (summarize_and_compress threshold llm st).summary.isSome := by
  unfold summarize_and_compress
  rw [if_neg (by omega)]
  refine ⟨?_, ?_⟩
  · simp only [List.length_drop]
    omega
  · cases st.summary <;> simp

/-- C1: the `add_message` call that reaches the default summarization
threshold (20) does not compact the history at all: the unawaited
`_summarize_and_compress()` coroutine is discarded, so 20 live messages
remain and no summary is produced (the claim expects 10 messages and a
non-absent summary). -/
theorem C1_add_message_threshold_no_compaction :
    ((List.range 20).foldl
        (fun st i => add_message 20 st "user" (toString i) "t")
        initialConversationMemory).messages.length = 20 ∧
    ((List.range 20).foldl
        (fun st i => add_message 20 st "user" (toString i) "t")
        initialConversationMemory).summary = none := by
  constructor
  · rfl
  · rfl

/-!
## Vector store (`src/src/memory/vector_store.py`)

The ChromaDB collection is modelled as a list of documents in insertion
order.  Embedding vectors and ANN distances are abstracted as oracles;
`_ensure_collection_exists` is a no-op in the model (the collection always
exists).  Metadata maps are association lists with Python-dict overwrite
semantics.
-/

/-- A ChromaDB metadata value (string / int / bool — the only types the
code stores after coercion). -/
inductive MetaValue
  | str (s : String)
  | int (n : Int)
  | bool (b : Bool)
deriving DecidableEq

/-- A Python value supplied as `additional_metadata` before coercion. -/
inductive PyValue
  | str (s : String)
  | int (n : Int)
  | bool (b : Bool)
  | list (l : List String)
  | noneV
deriving DecidableEq

/-- `add_email`'s coercion of an `additional_metadata` value
(`vector_store.py`, lines 137-146): lists become comma-joined strings,
`None` becomes the empty string, everything else is kept. -/
def coerceMetaValue (v : PyValue) : MetaValue :=
  match v with
  | .list l => .str (if l.isEmpty then "" else String.intercalate "," l)
  | .noneV => .str ""
  | .str s => .str s
  | .int n => .int n
  | .bool b => .bool b

/-- Python dict-merge of coerced additional metadata into a metadata map. -/
def mergeAdditional (base : List (String × MetaValue))
    (additional : List (String × PyValue)) : List (String × MetaValue) :=
  additional.foldl (fun m kv => dictInsert m kv.1 (coerceMetaValue kv.2)) base

structure Attachment where
  filename : String
  mime_type : String
deriving DecidableEq

structure VectorDoc where
  id : String
  document : String
  embedding : List Int
  metadata : List (String × MetaValue)
deriving DecidableEq

/-- The persisted collection, in insertion order. -/
abbrev VectorStore := List VectorDoc

/-- `VectorStore.add_email` (`vector_store.py`, lines 75-164); `embedder`
abstracts `generate_embedding`, `uuidHex` the `uuid.uuid4().hex[:8]` draw
and `now` the `datetime.now().isoformat()` call.  (Embedding-service
failures would propagate as exceptions; claims below concern completed
inserts, so the oracle is total.) -/
def add_email (embedder : String → List Int) (uuidHex now : String)
    (store : VectorStore) (email_id subject body sender recipients date :
      String) (labels : List String) (attachments : List Attachment)
    (thread_id : Option String)
    (additional_metadata : List (String × PyValue)) : VectorStore :=
  let combined_text :=
    "Subject: " ++ subject ++ "\n\nFrom: " ++ sender ++ "\n\nBody: " ++ body
  let embedding := embedder combined_text
  let metadata : List (String × MetaValue) :=
    [("email_id", .str email_id),
     ("subject", .str subject),
     ("sender", .str sender),
     ("recipients", .str recipients),
     ("date", .str date),
     ("labels", .str (if labels.isEmpty then ""
        else String.intercalate "," labels)),
     ("has_attachments", .bool (decide (0 < attachments.length))),
     ("attachment_count", .int attachments.length),
     ("thread_id", .str (thread_id.getD "")),
     ("indexed_at", .str now),
     ("content_type", .str "email")]
  let metadata :=
    if attachments.isEmpty then metadata
    else metadata ++
      [("attachment_names",
        .str (String.intercalate "," (attachments.map (·.filename))))]
  let metadata := mergeAdditional metadata additional_metadata
  let doc_id := "email_" ++ email_id ++ "_" ++ uuidHex
  store ++ [{ id := doc_id, document := combined_text,
              embedding := embedding, metadata := metadata }]

/-- The four parallel result arrays returned by a ChromaDB query (one
inner list per query embedding; the code always sends exactly one). -/
structure QueryResult where
  ids : List (List String)
  documents : List (List String)
  metadatas : List (List (List (String × MetaValue)))
  distances : List (List Nat)
deriving DecidableEq

/-- The canonical empty result shape
`{"ids": [[]], "documents": [[]], "metadatas": [[]], "distances": [[]]}`. -/
def emptyQueryResult : QueryResult :=
  { ids := [[]], documents := [[]], metadatas := [[]], distances := [[]] }

/-- Model of ChromaDB `collection.query`: the documents passing the
metadata filter, cut to `n` results; `dist` abstracts the ANN cosine
distances (result ordering is external to the code under audit and is
irrelevant to every claim, so documents are kept in collection order). -/
def collectionQuery (store : VectorStore) (dist : VectorDoc → Nat)
    (whereF : Option (List (String × MetaValue) → Bool)) (n : Nat) :
    QueryResult :=
  let filtered : List VectorDoc :=
    match whereF with
    | some f => store.filter (fun d => f d.metadata)
    | none => store
  let docs := filtered.take n
  { ids := [docs.map (·.id)]
    documents := [docs.map (·.document)]
    metadatas := [docs.map (·.metadata)]
    distances := [docs.map dist] }

/-- `VectorStore.semantic_search` (`vector_store.py`, lines 224-274):
empty collection short-circuits to the empty shape; otherwise the
requested result count is clamped to `[1, collection size]`; any raise
(modelled: a failing query embedding) is caught and yields the empty
shape. -/
def semantic_search (embedQuery : String → Except String (List Int))
    (dist : VectorDoc → Nat) (store : VectorStore) (query : String)
    (n_results : Nat := 10)
    (filter_metadata : Option (List (String × MetaValue) → Bool) := none) :
    QueryResult :=
  if store.length = 0 then emptyQueryResult
  else
    match embedQuery query with
    | .error _ => emptyQueryResult
    | .ok _ =>
        let actual_n_results := max 1 (min n_results store.length)
        collectionQuery store dist filter_metadata actual_n_results

/-- Model of ChromaDB `collection.get(where={key: v}, limit=n)`: ids of
the documents whose metadata at `key` equals `v`, up to `limit`. -/
def collection_get_where (store : VectorStore) (key : String)
    (v : MetaValue) (limit : Nat) : List String :=
  ((store.filter (fun d => decide (dictGet? d.metadata key = some v))).map
    (·.id)).take limit

/-- `VectorStore.clear_all_data` (`vector_store.py`, lines 390-406):
delete the collection and immediately recreate it empty. -/
def clear_all_data (_store : VectorStore) : VectorStore := []

/-!
## Email full-body storage (`src/src/memory/email_storage.py`)
-/

structure EmailRecord where
  email_id : String
  subject : String
  sender : String
  recipients : String
  cc : String
  date : String
  body_text : String
  body_html : String
  attachments : List Attachment
  labels : List String
  thread_id : String
  summary : String
  category : String
  stored_at : String
deriving DecidableEq

/-- The JSON-file-backed map of `EmailStorage`, keyed by email id. -/
abbrev EmailStorageMap := List (String × EmailRecord)

/-- `EmailStorage.store_email`: overwrite the entry for the id. -/
def store_email (storage : EmailStorageMap) (email_id : String)
    (r : EmailRecord) : EmailStorageMap :=
  dictInsert storage email_id r

/-- `EmailStorage.get_email`: lookup by id. -/
def get_email (storage : EmailStorageMap) (email_id : String) :
    Option EmailRecord :=
  dictGet? storage email_id

/-- `EmailStorage.clear_all`: reset the map. -/
def email_storage_clear_all (_storage : EmailStorageMap) : EmailStorageMap :=
  []

/-!
## Email indexer service (`src/src/services/email_indexer.py`)
-/

structure ParsedEmail where
  id : String
  thread_id : String
  labels : List String
  subject : String
  sender : String
  «to» : String
  cc : String
  date : String
  body_text : String
  body_html : String
  attachments : List Attachment
deriving DecidableEq

/-- `EmailIndexerService._categorize_email` (`email_indexer.py`, lines
358-395): first keyword bucket that matches the lowercased subject+body
wins; otherwise Gmail category labels; otherwise `general`. -/
def categorize_email (subject body : String) (labels : List String) :
    String :=
  let text := (subject ++ " " ++ body).toLower
  let categories : List (String × List String) :=
    [("placement", ["placement", "campus", "recruitment", "job",
        "interview", "company visit", "hiring"]),
     ("academic", ["exam", "assignment", "class", "lecture", "course",
        "semester", "grade"]),
     ("meeting", ["meeting", "schedule", "calendar", "conference", "zoom",
        "teams"]),
     ("notification", ["notification", "alert", "reminder", "update",
        "announcement"]),
     ("personal", ["personal", "family", "friend"]),
     ("work", ["project", "deadline", "task", "report", "work", "office"])]
  match categories.find? (fun c => c.2.any (fun kw => strContains text kw))
    with
  | some c => c.1
  | none =>
      if labels.contains "CATEGORY_PROMOTIONS" then "promotional"
      else if labels.contains "CATEGORY_SOCIAL" then "social"
      else if labels.contains "CATEGORY_UPDATES" then "updates"
      else "general"

/-- The summarization prompt of `_generate_email_summary`. -/
def emailSummaryPrompt (subject body : String) : String :=
  "Summarize this email concisely (max 3 sentences):\n\nSubject: " ++
  subject ++ "\n\nBody:\n" ++ body ++ "\n\nSummary:"

/-- `EmailIndexerService._generate_email_summary` (`email_indexer.py`,
lines 225-265); `llm` abstracts `generate_response` (`.error` = raise). -/
def generate_email_summary (llm : String → Except String String)
    (p : ParsedEmail) : String :=
  let body := pyTakeStr p.body_text 2000
  if body.isEmpty then "Email about: " ++ p.subject
  else
    match llm (emailSummaryPrompt p.subject body) with
    | .ok s => s.trim
    | .error _ => "Email about: " ++ p.subject

/-- The distinct top-level MIME types of the attachments
(`list(set(...))`: deduplicated; Python set iteration order is abstracted
as first-occurrence order). -/
def attachmentTypes (attachments : List Attachment) : List String :=
  ((attachments.filter (fun a => !a.mime_type.isEmpty)).map
    (fun a => ((a.mime_type.splitOn "/").head?).getD "")).eraseDups

/-- The `enhanced_metadata` map built by `_index_email_with_metadata`
(`email_indexer.py`, lines 290-310). -/
def enhanced_metadata (p : ParsedEmail) (summary : String) :
    List (String × PyValue) :=
  let types := attachmentTypes p.attachments
  [("summary", .str summary),
   ("has_attachment", .bool (decide (0 < p.attachments.length))),
   ("attachment_count", .int p.attachments.length),
   ("attachment_types", .str (if types.isEmpty then ""
      else String.intercalate "," types)),
   ("word_count", .int (if p.body_text.isEmpty then 0
      else pyWordCount p.body_text)),
   ("char_count", .int (if p.body_text.isEmpty then 0
      else p.body_text.length)),
   ("is_reply", .bool (strContains p.subject "Re:" ||
      strContains p.subject "RE:")),
   ("is_forward", .bool (strContains p.subject "Fwd:" ||
      strContains p.subject "FWD:")),
   ("priority", .bool (p.labels.contains "IMPORTANT" ||
      p.labels.contains "STARRED")),
   ("category", .str (categorize_email p.subject p.body_text p.labels)),
   ("has_html", .bool (!p.body_html.isEmpty)),
   ("sender_domain", .str (if strContains p.sender "@"
      then ((p.sender.splitOn "@").get? 1).getD "" else "")),
   ("is_chunked", .bool false),
   ("original_email_id", .str p.id)]

/-- Python `{**enhanced_metadata, ...overrides}`. -/
def pyDictMerge (base upd : List (String × PyValue)) :
    List (String × PyValue) :=
  upd.foldl (fun m kv => dictInsert m kv.1 kv.2) base

/-- `EmailIndexerService._index_email_with_metadata` (`email_indexer.py`,
lines 267-356): bodies longer than 1500 characters are chunked (1200/150)
and each chunk is inserted under the synthesized id
`<id>_chunk_<i>` — which `add_email` also records as the chunk's
`email_id` metadata — while shorter bodies are inserted whole under the
email's own id.  `uuid i` abstracts the per-insert `uuid4` draw. -/
def index_email_with_metadata (embedder : String → List Int)
    (uuid : Nat → String) (now : String) (store : VectorStore)
    (p : ParsedEmail) (summary : String) : VectorStore :=
  let enhanced := enhanced_metadata p summary
  if 1500 < p.body_text.length then
    let chunks := (chunk_text p.body_text.toList 1200 150).map String.mk
    chunks.enum.foldl
      (fun st ic =>
        let chunk_metadata := pyDictMerge enhanced
          [("is_chunked", .bool true),
           ("chunk_index", .int ic.1),
           ("total_chunks", .int chunks.length),
           ("original_email_id", .str p.id),
           ("chunk_word_count", .int (pyWordCount ic.2))]
        add_email embedder (uuid ic.1) now st
          (p.id ++ "_chunk_" ++ toString ic.1) p.subject ic.2 p.sender
          p.«to» p.date p.labels p.attachments (some p.thread_id)
          chunk_metadata)
      store
  else
    add_email embedder (uuid 0) now store p.id p.subject p.body_text
      p.sender p.«to» p.date p.labels p.attachments (some p.thread_id)
      enhanced

/-- The dedupe check of `run_indexing` (`email_indexer.py`, lines
148-162): any existing document whose `email_id` metadata exactly equals
the message id. -/
def emailAlreadyIndexed (store : VectorStore) (id : String) : Bool :=
  !(collection_get_where store "email_id" (.str id) 1).isEmpty

/-- Joint persistent state touched by one indexing step. -/
structure IndexerState where
  vector_store : VectorStore
  email_storage : EmailStorageMap
deriving DecidableEq

inductive IndexOutcome
  | indexed
  | skipped
deriving DecidableEq

/-- The per-message body of `run_indexing` (`email_indexer.py`, lines
148-187) for one already-fetched parsed message: dedupe-check, summarize,
categorize, store the full body, then index into the vector store. -/
def run_indexing_step (embedder : String → List Int) (uuid : Nat → String)
    (llm : String → Except String String) (now : String)
    (st : IndexerState) (p : ParsedEmail) : IndexerState × IndexOutcome :=
  if emailAlreadyIndexed st.vector_store p.id then (st, .skipped)
  else
    let summary := generate_email_summary llm p
    let category := categorize_email p.subject p.body_text p.labels
    let record : EmailRecord :=
      { email_id := p.id, subject := p.subject, sender := p.sender,
        recipients := p.«to», cc := p.cc, date := p.date,
        body_text := p.body_text, body_html := p.body_html,
        attachments := p.attachments, labels := p.labels,
        thread_id := p.thread_id, summary := summary,
        category := category, stored_at := now }
    let storage' := store_email st.email_storage p.id record
    let vs' := index_email_with_metadata embedder uuid now st.vector_store
      p summary
    ({ vector_store := vs', email_storage := storage' }, .indexed)

/-!
## C6: empty-collection search and result-count clamp
-/

/-- C6: `semantic_search` on an empty collection returns the canonical
empty result shape (and never raises: the embedding step is only reached
on a non-empty collection, and its failure is caught into the same empty
shape); on a non-empty collection the count requested from the index is
clamped to `max 1 (min n count)`, which lies in `[1, count]` and is the
number of ids actually returned for an unfiltered query. -/
theorem C6_semantic_search_empty_and_clamped
    (embedQuery : String → Except String (List Int))
    (dist : VectorDoc → Nat) (store : VectorStore) (query : String)
    (n : Nat) :
    (store = [] →
      semantic_search embedQuery dist store query n none = emptyQueryResult)
    ∧ (store ≠ [] →
        1 ≤ max 1 (min n store.length) ∧
        max 1 (min n store.length) ≤ store.length ∧
        (∀ emb, embedQuery query = .ok emb →
          ((semantic_search embedQuery dist store query n none).ids.headD
            []).length = max 1 (min n store.length))) := by
  constructor
  · intro hempty
    subst hempty
    rfl
  · intro hne
    have hlen : 0 < store.length := List.length_pos.mpr hne
    refine ⟨Nat.le_max_left _ _, ?_, ?_⟩
    · omega
    · intro emb hok
      unfold semantic_search
      rw [if_neg (by omega), hok]
      simp only [collectionQuery, List.headD_cons, List.length_map,
        List.length_take]
      omega

/-- C6 witness: a single-document collection with a successful embedding
oracle exhibits both the empty-collection shape and the clamp. -/
theorem C6_witness :
    (semantic_search (fun _ => .ok []) (fun _ => 0) [] "q" 10 none =
      emptyQueryResult)
    ∧ ((semantic_search (fun _ => .ok [])
        (fun _ => 0)
        [{ id := "d1", document := "doc", embedding := [],
           metadata := [("content_type", .str "email")] }]
        "q" 10 none).ids.headD []).length = max 1 (min 10 1) := by
  constructor
  · exact (C6_semantic_search_empty_and_clamped (fun _ => .ok [])
      (fun _ => 0) [] "q" 10).1 rfl
  · exact ((C6_semantic_search_empty_and_clamped (fun _ => .ok [])
      (fun _ => 0)
      [{ id := "d1", document := "doc", embedding := [],
         metadata := [("content_type", .str "email")] }]
      "q" 10).2 (by simp)).2.2 [] rfl

/-!
## C8: independence of the two stores
-/

/-- `EmailAssistant.clear_vector_db` (`email_assistant.py`, lines
527-531): wipes the vector store only. -/
def clear_vector_db (st : IndexerState) : IndexerState :=
  { st with vector_store := clear_all_data st.vector_store }

/-- `EmailStorage.clear_all` lifted to the joint state. -/
def clear_email_storage (st : IndexerState) : IndexerState :=
  { st with email_storage := email_storage_clear_all st.email_storage }

/-- C8: `clear_vector_db` empties the vector store but leaves the email
full-body storage bit-for-bit intact (every id remains retrievable with
the same record), and clearing the email storage removes no vector-store
document. -/
theorem C8_store_independence (st : IndexerState) (id : String) :
    (clear_vector_db st).vector_store = []
    ∧ (clear_vector_db st).email_storage = st.email_storage
    ∧ get_email (clear_vector_db st).email_storage id =
        get_email st.email_storage id
    ∧ (clear_email_storage st).vector_store = st.vector_store :=
  ⟨rfl, rfl, rfl, rfl⟩

/-!
## C2: dedupe check versus chunked indexing
-/

theorem dictGet?_dictInsert_ne {α : Type} (m : List (String × α))
    (k k' : String) (v : α) (h : k ≠ k') :
    dictGet? (dictInsert m k' v) k = dictGet? m k := by
  have hne : k' ≠ k := fun hh => h hh.symm
  induction m with
  | nil => simp [dictInsert, dictGet?, hne]
  | cons kv rest ih =>
      by_cases hk : kv.1 = k'
      · have hkk : kv.1 ≠ k := by rw [hk]; exact hne
        simp [dictInsert, hk, dictGet?, hne, hkk]
      · by_cases hk2 : kv.1 = k
        · simp [dictInsert, hk, dictGet?, hk2, h]
        · simp [dictInsert, hk, dictGet?, hk2, ih]

/-- Merging additional metadata whose keys avoid `k` does not change the
lookup at `k`. -/
theorem mergeAdditional_lookup_ne (adds : List (String × PyValue))
    (k : String) :
    ∀ (base : List (String × MetaValue)),
      (∀ kv ∈ adds, kv.1 ≠ k) →
      dictGet? (mergeAdditional base adds) k = dictGet? base k := by
  induction adds with
  | nil => intro base _; rfl
  | cons kv rest ih =>
      intro base h
      have hk : kv.1 ≠ k := h kv (List.mem_cons_self _ _)
      have hrest : ∀ kv' ∈ rest, kv'.1 ≠ k :=
        fun kv' hm => h kv' (List.mem_cons_of_mem _ hm)
      calc dictGet? (mergeAdditional base (kv :: rest)) k
          = dictGet? (mergeAdditional
              (dictInsert base kv.1 (coerceMetaValue kv.2)) rest) k := rfl
        _ = dictGet? (dictInsert base kv.1 (coerceMetaValue kv.2)) k :=
            ih _ hrest
        _ = dictGet? base k :=
            dictGet?_dictInsert_ne _ _ _ _ (fun hh => hk hh.symm)

theorem dictInsert_mem {α : Type} (m : List (String × α)) (k : String)
    (v : α) :
    ∀ kv ∈ dictInsert m k v, kv.1 = k ∨ kv ∈ m := by
  induction m with
  | nil =>
      intro kv hm
      simp only [dictInsert, List.mem_singleton] at hm
      subst hm
      exact Or.inl rfl
  | cons hd rest ih =>
      intro kv hm
      by_cases hk : hd.1 = k
      · simp only [dictInsert, hk, if_true, List.mem_cons] at hm
        rcases hm with hm | hm
        · subst hm; exact Or.inl rfl
        · exact Or.inr (List.mem_cons_of_mem _ hm)
      · simp only [dictInsert, hk, if_false, List.mem_cons] at hm
        rcases hm with hm | hm
        · subst hm; exact Or.inr (List.mem_cons_self _ _)
        · rcases ih kv hm with hh | hh
          · exact Or.inl hh
          · exact Or.inr (List.mem_cons_of_mem _ hh)

/-- Keys of a Python dict merge come from one of the two sides. -/
theorem pyDictMerge_mem (upd : List (String × PyValue)) :
    ∀ (base : List (String × PyValue)) (kv : String × PyValue),
      kv ∈ pyDictMerge base upd →
      kv.1 ∈ base.map Prod.fst ∨ kv.1 ∈ upd.map Prod.fst := by
  induction upd with
  | nil =>
      intro base kv hm
      exact Or.inl (List.mem_map_of_mem _ hm)
  | cons u us ih =>
      intro base kv hm
      have hm' : kv ∈ pyDictMerge (dictInsert base u.1 u.2) us := hm
      rcases ih _ kv hm' with hh | hh
      · obtain ⟨kv', hkv', hfst⟩ := List.mem_map.mp hh
        rcases dictInsert_mem base u.1 u.2 kv' hkv' with h1 | h1
        · right
          simp [← hfst, h1]
        · left
          exact hfst ▸ List.mem_map_of_mem _ h1
      · right
        simp only [List.map_cons, List.mem_cons]
        exact Or.inr hh

/-- `collection.get(where={"email_id": id})` finds something exactly when
some stored document's `email_id` metadata equals the id. -/
theorem emailAlreadyIndexed_iff (store : VectorStore) (id : String) :
    emailAlreadyIndexed store id = true ↔
      ∃ d ∈ store, dictGet? d.metadata "email_id" = some (.str id) := by
  unfold emailAlreadyIndexed collection_get_where
  rw [Bool.not_eq_true', ← Bool.not_eq_true, List.isEmpty_iff]
  constructor
  · intro h
    by_cases hfil : store.filter
        (fun d => decide (dictGet? d.metadata "email_id" =
          some (MetaValue.str id))) = []
    · exact absurd (by simp [hfil]) h
    · obtain ⟨d, hd⟩ := List.exists_mem_of_ne_nil _ hfil
      have := List.mem_filter.mp hd
      exact ⟨d, this.1, of_decide_eq_true this.2⟩
  · intro ⟨d, hd, hmeta⟩ h
    have hmem : d ∈ store.filter
        (fun d => decide (dictGet? d.metadata "email_id" =
          some (MetaValue.str id))) :=
      List.mem_filter.mpr ⟨hd, decide_eq_true hmeta⟩
    rcases List.take_eq_nil_iff.mp h with h1 | h1
    · omega
    · rw [List.map_eq_nil_iff] at h1
      rw [h1] at hmem
      simp at hmem

/-- Appending one document changes the dedupe verdict only through that
document's own `email_id` metadata. -/
theorem emailAlreadyIndexed_append (store : VectorStore) (d : VectorDoc)
    (id : String) :
    emailAlreadyIndexed (store ++ [d]) id =
      (emailAlreadyIndexed store id ||
        decide (dictGet? d.metadata "email_id" = some (.str id))) := by
  by_cases h : emailAlreadyIndexed (store ++ [d]) id = true
  · obtain ⟨d', hd', hm⟩ := (emailAlreadyIndexed_iff _ _).mp h
    rw [h]
    rcases List.mem_append.mp hd' with hh | hh
    · rw [(emailAlreadyIndexed_iff _ _).mpr ⟨d', hh, hm⟩]
      rfl
    · simp only [List.mem_singleton] at hh
      subst hh
      rw [decide_eq_true hm, Bool.or_true]
  · have h' := h
    rw [Bool.not_eq_true] at h'
    rw [h']
    have hnone : ¬∃ d' ∈ store ++ [d],
        dictGet? d'.metadata "email_id" = some (.str id) :=
      fun hc => h ((emailAlreadyIndexed_iff _ _).mpr hc)
    push_neg at hnone
    have h1 : emailAlreadyIndexed store id = false := by
      rw [← Bool.not_eq_true]
      intro hc
      obtain ⟨d', hd', hm⟩ := (emailAlreadyIndexed_iff _ _).mp hc
      exact absurd hm (hnone d' (List.mem_append.mpr (Or.inl hd')))
    have h2 : dictGet? d.metadata "email_id" ≠ some (.str id) :=
      hnone d (List.mem_append.mpr (Or.inr (List.mem_singleton_self _)))
    rw [h1, decide_eq_false h2, Bool.or_false]

/-- The document `add_email` appends carries the `add_email` call's
`email_id` argument as its `email_id` metadata, as long as the caller's
additional metadata does not override that key. -/
theorem add_email_shape (embedder : String → List Int)
    (uuidHex now : String) (store : VectorStore)
    (eid subject body sender recipients date : String)
    (labels : List String) (attachments : List Attachment)
    (tid : Option String) (adds : List (String × PyValue))
    (h : ∀ kv ∈ adds, kv.1 ≠ "email_id") :
    ∃ d : VectorDoc,
      add_email embedder uuidHex now store eid subject body sender
        recipients date labels attachments tid adds = store ++ [d] ∧
      dictGet? d.metadata "email_id" = some (.str eid) := by
  refine ⟨_, rfl, ?_⟩
  show dictGet? (mergeAdditional _ adds) "email_id" = some (.str eid)
  rw [mergeAdditional_lookup_ne adds "email_id" _ h]
  by_cases hatt : attachments.isEmpty
  · simp only [hatt, if_true]
    rfl
  · simp only [hatt, if_false]
    rfl

/-- A chunk's synthesized id differs from the original email id. -/
theorem chunk_id_ne (a : String) (i : Nat) :
    a ++ "_chunk_" ++ toString i ≠ a := by
  intro h
  have hlen := congrArg String.length h
  rw [String.length_append, String.length_append] at hlen
  have h7 : "_chunk_".length = 7 := rfl
  omega

theorem enhanced_metadata_keys (p : ParsedEmail) (summary : String) :
    (enhanced_metadata p summary).map Prod.fst =
      ["summary", "has_attachment", "attachment_count", "attachment_types",
       "word_count", "char_count", "is_reply", "is_forward", "priority",
       "category", "has_html", "sender_domain", "is_chunked",
       "original_email_id"] := rfl

/-- No key of `enhanced_metadata` is `email_id`. -/
theorem enhanced_metadata_no_email_id (p : ParsedEmail) (summary : String) :
    ∀ kv ∈ enhanced_metadata p summary, kv.1 ≠ "email_id" := by
  intro kv hm
  have hk : kv.1 ∈ (enhanced_metadata p summary).map Prod.fst :=
    List.mem_map_of_mem _ hm
  rw [enhanced_metadata_keys] at hk
  exact fun heq => absurd (heq ▸ hk) (by decide)

/-- No key of a chunk's metadata map is `email_id` either. -/
theorem chunk_metadata_no_email_id (p : ParsedEmail) (summary : String)
    (overrides : List (String × PyValue))
    (hov : ∀ kv ∈ overrides, kv.1 ≠ "email_id") :
    ∀ kv ∈ pyDictMerge (enhanced_metadata p summary) overrides,
      kv.1 ≠ "email_id" := by
  intro kv hm
  rcases pyDictMerge_mem overrides _ kv hm with hh | hh
  · rw [enhanced_metadata_keys] at hh
    exact fun heq => absurd (heq ▸ hh) (by decide)
  · obtain ⟨kv', hkv', hfst⟩ := List.mem_map.mp hh
    rw [← hfst]
    exact hov kv' hkv'

/-- Folding vector-store inserts that each leave the dedupe verdict alone
leaves it alone overall. -/
theorem emailAlreadyIndexed_foldl {β : Type} (id : String)
    (f : VectorStore → β → VectorStore)
    (hf : ∀ st ic, emailAlreadyIndexed (f st ic) id =
      emailAlreadyIndexed st id) :
    ∀ (l : List β) (st : VectorStore),
      emailAlreadyIndexed (l.foldl f st) id = emailAlreadyIndexed st id := by
  intro l
  induction l with
  | nil => intro st; rfl
  | cons x xs ih =>
      intro st
      rw [List.foldl_cons, ih (f st x), hf st x]

/-- Indexing a body longer than 1500 characters inserts only chunk
documents, whose `email_id` metadata is the synthesized
`<id>_chunk_<i>` — so the dedupe query for the original id is unaffected. -/
theorem index_chunked_dedupe_unchanged (embedder : String → List Int)
    (uuid : Nat → String) (now : String) (store : VectorStore)
    (p : ParsedEmail) (summary : String)
    (hbig : 1500 < p.body_text.length) :
    emailAlreadyIndexed
      (index_email_with_metadata embedder uuid now store p summary) p.id =
    emailAlreadyIndexed store p.id := by
  unfold index_email_with_metadata
  rw [if_pos hbig]
  apply emailAlreadyIndexed_foldl
  intro st ic
  have hstep := add_email_shape embedder (uuid ic.1) now st
    (p.id ++ "_chunk_" ++ toString ic.1) p.subject ic.2 p.sender p.«to»
    p.date p.labels p.attachments (some p.thread_id)
    (pyDictMerge (enhanced_metadata p summary)
      [("is_chunked", .bool true),
       ("chunk_index", .int ic.1),
       ("total_chunks",
         .int ((chunk_text p.body_text.toList 1200 150).map
           String.mk).length),
       ("original_email_id", .str p.id),
       ("chunk_word_count", .int (pyWordCount ic.2))])
    (chunk_metadata_no_email_id p summary _ (by
      intro kv hkv
      have hk := List.mem_map_of_mem Prod.fst hkv
      simp only [List.map_cons, List.map_nil] at hk
      exact fun heq => absurd (heq ▸ hk) (by decide)))
  obtain ⟨d, hd, hm⟩ := hstep
  show emailAlreadyIndexed (add_email embedder (uuid ic.1) now st
    (p.id ++ "_chunk_" ++ toString ic.1) p.subject ic.2 p.sender p.«to»
    p.date p.labels p.attachments (some p.thread_id)
    (pyDictMerge (enhanced_metadata p summary)
      [("is_chunked", .bool true),
       ("chunk_index", .int ic.1),
       ("total_chunks",
         .int ((chunk_text p.body_text.toList 1200 150).map
           String.mk).length),
       ("original_email_id", .str p.id),
       ("chunk_word_count", .int (pyWordCount ic.2))])) p.id =
    emailAlreadyIndexed st p.id
  rw [hd, emailAlreadyIndexed_append, hm]
  have hne : (some (MetaValue.str (p.id ++ "_chunk_" ++ toString ic.1)) :
      Option MetaValue) ≠ some (.str p.id) := fun hcontra =>
    chunk_id_ne p.id ic.1 (MetaValue.str.inj (Option.some.inj hcontra))
  rw [decide_eq_false hne, Bool.or_false]

/-- Indexing a body of at most 1500 characters inserts one whole document
whose `email_id` metadata is the email's own id, so the dedupe query for
that id then finds a match. -/
theorem index_unchunked_dedupe_found (embedder : String → List Int)
    (uuid : Nat → String) (now : String) (store : VectorStore)
    (p : ParsedEmail) (summary : String)
    (hsmall : ¬1500 < p.body_text.length) :
    emailAlreadyIndexed
      (index_email_with_metadata embedder uuid now store p summary) p.id =
      true := by
  unfold index_email_with_metadata
  rw [if_neg hsmall]
  obtain ⟨d, hd, hm⟩ := add_email_shape embedder (uuid 0) now store p.id
    p.subject p.body_text p.sender p.«to» p.date p.labels p.attachments
    (some p.thread_id) _ (enhanced_metadata_no_email_id p summary)
  rw [hd, emailAlreadyIndexed_append, hm,
    decide_eq_true (rfl : (some (MetaValue.str p.id) : Option MetaValue) =
      some (.str p.id)), Bool.or_true]

/-- When the dedupe check misses, `run_indexing_step` indexes the message
and its vector-store component is the chunk-aware insert. -/
theorem run_indexing_step_not_found (embedder : String → List Int)
    (uuid : Nat → String) (llm : String → Except String String)
    (now : String) (st : IndexerState) (p : ParsedEmail)
    (h : emailAlreadyIndexed st.vector_store p.id = false) :
    (run_indexing_step embedder uuid llm now st p).1.vector_store =
      index_email_with_metadata embedder uuid now st.vector_store p
        (generate_email_summary llm p)
    ∧ (run_indexing_step embedder uuid llm now st p).2 = .indexed := by
  unfold run_indexing_step
  rw [if_neg (by simp [h])]
  exact ⟨rfl, rfl⟩

/-- When the dedupe check hits, `run_indexing_step` skips the message and
leaves both stores untouched. -/
theorem run_indexing_step_found (embedder : String → List Int)
    (uuid : Nat → String) (llm : String → Except String String)
    (now : String) (st : IndexerState) (p : ParsedEmail)
    (h : emailAlreadyIndexed st.vector_store p.id = true) :
    run_indexing_step embedder uuid llm now st p = (st, .skipped) := by
  unfold run_indexing_step
  rw [if_pos h]

/-- C2 (amended): after a completed indexing pass stores a new email, a
subsequent pass's dedupe query for that message's id finds a match — and
the email is skipped — exactly when the body was short enough (≤ 1500
characters) to be indexed whole; an email indexed as chunks stores only
`<id>_chunk_<i>` values under the `email_id` metadata key, so the
exact-equality dedupe query misses and the email is re-indexed. -/
theorem C2_dedupe_only_unchunked (embedder : String → List Int)
    (uuid : Nat → String) (llm : String → Except String String)
    (now : String) (embedder2 : String → List Int) (uuid2 : Nat → String)
    (llm2 : String → Except String String) (now2 : String)
    (st : IndexerState) (p : ParsedEmail)
    (hnew : emailAlreadyIndexed st.vector_store p.id = false) :
    (p.body_text.length ≤ 1500 →
        emailAlreadyIndexed
          (run_indexing_step embedder uuid llm now st p).1.vector_store
          p.id = true ∧
        (run_indexing_step embedder2 uuid2 llm2 now2
          (run_indexing_step embedder uuid llm now st p).1 p).2 = .skipped)
    ∧ (1500 < p.body_text.length →
        emailAlreadyIndexed
          (run_indexing_step embedder uuid llm now st p).1.vector_store
          p.id = false ∧
        (run_indexing_step embedder2 uuid2 llm2 now2
          (run_indexing_step embedder uuid llm now st p).1 p).2 =
          .indexed) := by
  obtain ⟨hvs, _⟩ := run_indexing_step_not_found embedder uuid llm now st p
    hnew
  constructor
  · intro hsmall
    have hfound : emailAlreadyIndexed
        (run_indexing_step embedder uuid llm now st p).1.vector_store
        p.id = true := by
      rw [hvs]
      exact index_unchunked_dedupe_found embedder uuid now st.vector_store
        p _ (by omega)
    refine ⟨hfound, ?_⟩
    rw [run_indexing_step_found embedder2 uuid2 llm2 now2 _ p hfound]
  · intro hbig
    have hmiss : emailAlreadyIndexed
        (run_indexing_step embedder uuid llm now st p).1.vector_store
        p.id = false := by
      rw [hvs]
      rw [index_chunked_dedupe_unchanged embedder uuid now st.vector_store
        p _ hbig]
      exact hnew
    exact ⟨hmiss,
      (run_indexing_step_not_found embedder2 uuid2 llm2 now2 _ p hmiss).2⟩

/-- A concrete 1501-character email for the C2 counterexample. -/
def bigEmail : ParsedEmail :=
  { id := "m1", thread_id := "", labels := [], subject := "",
    sender := "", «to» := "", cc := "", date := "",
    body_text := String.mk (List.replicate 1501 'a'), body_html := "",
    attachments := [] }

/-- C2 counterexample: after a completed pass indexes a 1501-character
email (as chunks), the next pass's dedupe query for its id finds nothing
and the email is counted `indexed` again, not `skipped` as claimed. -/
theorem C2_counterexample :
    emailAlreadyIndexed
      ((run_indexing_step (fun _ => []) (fun _ => "u") (fun _ => .error "e")
        "t" ⟨[], []⟩ bigEmail).1).vector_store "m1" = false ∧
    (run_indexing_step (fun _ => []) (fun _ => "u") (fun _ => .error "e")
      "t" ((run_indexing_step (fun _ => []) (fun _ => "u")
        (fun _ => .error "e") "t" ⟨[], []⟩ bigEmail).1) bigEmail).2 =
      IndexOutcome.indexed := by
  have hbig : 1500 < bigEmail.body_text.length := by
    show 1500 < (String.mk (List.replicate 1501 'a')).length
    rw [String.length_mk, List.length_replicate]
    omega
  have hnew : emailAlreadyIndexed (([] : VectorStore)) bigEmail.id =
      false := rfl
  have h := C2_dedupe_only_unchunked (fun _ => []) (fun _ => "u")
    (fun _ => .error "e") "t" (fun _ => []) (fun _ => "u")
    (fun _ => .error "e") "t" ⟨[], []⟩ bigEmail hnew
  exact ⟨(h.2 hbig).1, (h.2 hbig).2⟩

/-- C2 witness: a short email is deduped (skipped) on the second pass. -/
theorem C2_witness :
    emailAlreadyIndexed (([] : VectorStore)) "m2" = false ∧
    (run_indexing_step (fun _ => []) (fun _ => "u") (fun _ => .error "e")
      "t" ((run_indexing_step (fun _ => []) (fun _ => "u")
        (fun _ => .error "e") "t" ⟨[], []⟩
        { id := "m2", thread_id := "", labels := [], subject := "",
          sender := "", «to» := "", cc := "", date := "",
          body_text := "hi", body_html := "", attachments := [] }).1)
      { id := "m2", thread_id := "", labels := [], subject := "",
        sender := "", «to» := "", cc := "", date := "",
        body_text := "hi", body_html := "", attachments := [] }).2 =
      IndexOutcome.skipped := by
  refine ⟨rfl, ?_⟩
  exact ((C2_dedupe_only_unchunked (fun _ => []) (fun _ => "u")
    (fun _ => .error "e") "t" (fun _ => []) (fun _ => "u")
    (fun _ => .error "e") "t" ⟨[], []⟩ _ rfl).1 (by decide)).2

/-!
## Base tool-using agent (`src/src/agents/base_agent.py`)

The per-turn LLM decision (`_get_agent_decision`) is abstracted as an
oracle indexed by the number of decision calls made so far; a malformed
LLM response is already folded into a fallback `final_answer` by the
source, so the oracle's codomain is exactly the three JSON actions.
`_execute_tool` converts unknown tools and tool exceptions into inline
error strings, so tool execution is a total oracle as well.
-/

inductive AgentDecision
  | useTool (name : String) (params : List (String × String))
      (thought : String)
  | finalAnswer (content : String) (thought : String)
  | think (thought : String)
deriving DecidableEq

structure ToolCallRecord where
  tool : String
  parameters : List (String × String)
  result : String
deriving DecidableEq

/-- The dictionary `BaseAgent.run` returns.  `forced_stop` is `true` when
the Python dict carries `'forced_stop': True` and `false` when the key is
absent; `forcedCalls` is ghost instrumentation counting the
forced-synthesis decision calls (`force_synthesize=True`) issued. -/
structure AgentRunResult where
  answer : String
  tool_calls : List ToolCallRecord
  iterations : Nat
  completed : Bool
  forced_stop : Bool
  forcedCalls : Nat
deriving DecidableEq

/-- `len(set(last_three)) == 1 and last_three[0] == tool_results[-1]['tool']`
over the last three tool calls (`base_agent.py`, lines 85-87). -/
def lastThreeSameTool (toolResults : List ToolCallRecord) : Bool :=
  match (toolResults.drop (toolResults.length - 3)).map (·.tool) with
  | [a, b, c] => a == b && b == c
  | _ => false

/-- The `while iteration < self.max_iterations` loop of `BaseAgent.run`
(`base_agent.py`, lines 78-160), with the remaining iteration budget as
fuel.  `oracle n` is the result of the `n`-th `_get_agent_decision` call
of the run (forced-synthesis calls included). -/
def runAux (oracle : Nat → AgentDecision)
    (toolExec : String → List (String × String) → String) :
    Nat → Nat → Nat → List ToolCallRecord → List String → Nat →
      AgentRunResult
  | 0, iteration, _, toolResults, _, forcedCount =>
      { answer :=
          "I've exhausted my thinking iterations. Please rephrase your query.",
        tool_calls := toolResults, iterations := iteration,
        completed := false, forced_stop := false,
        forcedCalls := forcedCount }
  | fuel + 1, iteration, callIdx, toolResults, thoughts, forcedCount =>
      -- the loop-breaking check (`iteration > 3` after the increment);
      -- when the forced call yields no final answer the code falls
      -- through to the normal decision, so that continuation appears in
      -- both branches (with the forced call consuming one oracle index)
      if 3 < iteration + 1 ∧ 3 ≤ toolResults.length ∧
          lastThreeSameTool toolResults then
        match oracle callIdx with
        | .finalAnswer content _ =>
            { answer := content, tool_calls := toolResults,
              iterations := iteration + 1, completed := true,
              forced_stop := true, forcedCalls := forcedCount + 1 }
        | _ =>
            match oracle (callIdx + 1) with
            | .finalAnswer content _ =>
                { answer := content, tool_calls := toolResults,
                  iterations := iteration + 1, completed := true,
                  forced_stop := false, forcedCalls := forcedCount + 1 }
            | .useTool name params thought =>
                runAux oracle toolExec fuel (iteration + 1) (callIdx + 2)
                  (toolResults ++ [⟨name, params, toolExec name params⟩])
                  (thoughts ++ [thought]) (forcedCount + 1)
            | .think thought =>
                runAux oracle toolExec fuel (iteration + 1) (callIdx + 2)
                  toolResults (thoughts ++ [thought]) (forcedCount + 1)
      else
        match oracle callIdx with
        | .finalAnswer content _ =>
            { answer := content, tool_calls := toolResults,
              iterations := iteration + 1, completed := true,
              forced_stop := false, forcedCalls := forcedCount }
        | .useTool name params thought =>
            runAux oracle toolExec fuel (iteration + 1) (callIdx + 1)
              (toolResults ++ [⟨name, params, toolExec name params⟩])
              (thoughts ++ [thought]) forcedCount
        | .think thought =>
            runAux oracle toolExec fuel (iteration + 1) (callIdx + 1)
              toolResults (thoughts ++ [thought]) forcedCount

/-- `BaseAgent.run` with the constructor's `max_iterations = 10`. -/
def base_agent_run (oracle : Nat → AgentDecision)
    (toolExec : String → List (String × String) → String) :
    AgentRunResult :=
  runAux oracle toolExec 10 0 0 [] [] 0

/-- The loop never reports more iterations than it was given budget for. -/
theorem runAux_iterations_le (oracle : Nat → AgentDecision)
    (toolExec : String → List (String × String) → String) :
    ∀ (fuel iteration callIdx : Nat) (toolResults : List ToolCallRecord)
      (thoughts : List String) (forcedCount : Nat),
      (runAux oracle toolExec fuel iteration callIdx toolResults thoughts
        forcedCount).iterations ≤ iteration + fuel := by
  intro fuel
  induction fuel with
  | zero => intro iteration _ _ _ _; simp [runAux]
  | succ n ih =>
      intro iteration callIdx toolResults thoughts forcedCount
      rw [runAux]
      by_cases hcond : 3 < iteration + 1 ∧ 3 ≤ toolResults.length ∧
          lastThreeSameTool toolResults
      · rw [if_pos hcond]
        cases oracle callIdx with
        | finalAnswer content thought => simp
        | useTool name params thought =>
            cases oracle (callIdx + 1) with
            | finalAnswer c t => simp
            | useTool nm pr th => exact le_trans (ih _ _ _ _ _) (by omega)
            | think th => exact le_trans (ih _ _ _ _ _) (by omega)
        | think thought =>
            cases oracle (callIdx + 1) with
            | finalAnswer c t => simp
            | useTool nm pr th => exact le_trans (ih _ _ _ _ _) (by omega)
            | think th => exact le_trans (ih _ _ _ _ _) (by omega)
      · rw [if_neg hcond]
        cases oracle callIdx with
        | finalAnswer c t => simp
        | useTool nm pr th => exact le_trans (ih _ _ _ _ _) (by omega)
        | think th => exact le_trans (ih _ _ _ _ _) (by omega)

/-- C3 (amended): from turn 4 on, a forced-synthesis decision call is
issued on *every* turn whose last three tool calls name the same tool —
when it yields a final answer the run stops at once with `forced_stop`,
but when it does not the loop simply continues (with an always-same-tool
LLM it issues one forced call per turn, seven in total); in all cases the
run never exceeds 10 turns. -/
theorem C3_loop_breaking (oracle : Nat → AgentDecision)
    (toolExec : String → List (String × String) → String) :
    (base_agent_run oracle toolExec).iterations ≤ 10
    ∧ (base_agent_run (fun n => if n < 3 then .useTool "X" [] "" else
          .finalAnswer "done" "") (fun _ _ => "r") =
        { answer := "done",
          tool_calls :=
            [⟨"X", [], "r"⟩, ⟨"X", [], "r"⟩, ⟨"X", [], "r"⟩],
          iterations := 4, completed := true, forced_stop := true,
          forcedCalls := 1 })
    ∧ ((base_agent_run (fun _ => .useTool "X" [] "")
          (fun _ _ => "r")).forcedCalls = 7
        ∧ (base_agent_run (fun _ => .useTool "X" [] "")
            (fun _ _ => "r")).iterations = 10
        ∧ (base_agent_run (fun _ => .useTool "X" [] "")
            (fun _ _ => "r")).completed = false) := by
  refine ⟨?_, by decide, by decide⟩
  exact runAux_iterations_le oracle toolExec 10 0 0 [] [] 0

/-- C3 counterexample: with an LLM that always chooses the same tool, the
run issues seven forced-synthesis decision calls (not exactly one), and
after a forced call that yields no final answer the run neither stops that
turn nor carries a `forced_stop` flag — it only ends at the 10-turn cap. -/
theorem C3_counterexample :
    (base_agent_run (fun _ => .useTool "X" [] "")
      (fun _ _ => "r")).forcedCalls = 7
    ∧ (base_agent_run (fun _ => .useTool "X" [] "")
        (fun _ _ => "r")).forced_stop = false
    ∧ (base_agent_run (fun _ => .useTool "X" [] "")
        (fun _ _ => "r")).iterations = 10 := by decide

/-!
## Execution planner (`src/src/workflows/execution_planner.py`)

`execute_plan` mutates task objects in place; the embedding threads the
task list through the wave loop.  Within a wave the tasks run
concurrently, but each task only mutates itself, so the wave is a
pointwise map.  The tool-executor object is an oracle from operation name
and parameters to `Except` (an exception — including the `hasattr` miss —
marks the task `failed` with the error recorded).
-/

inductive TaskStatus
  | pending
  | running
  | completed
  | failed
  | blocked
deriving DecidableEq

structure ExecutionTask where
  task_id : String
  operation : String
  parameters : List (String × String)
  dependencies : List String
  status : TaskStatus := .pending
  result : Option String := none
  error : Option String := none
deriving DecidableEq

abbrev ToolExecutor := String → List (String × String) → Except String String

/-- `execute_single_task` (`execution_planner.py`, lines 273-298): run the
like-named executor method; success marks `completed` with the result,
any exception marks `failed` with the error. -/
def execute_single_task (executor : ToolExecutor) (t : ExecutionTask) :
    ExecutionTask :=
  match executor t.operation t.parameters with
  | .ok r => { t with status := .completed, result := some r }
  | .error e => { t with status := .failed, error := some e }

/-- Ready test of the wave loop (`execution_planner.py`, lines 207-211):
pending and every dependency already in `completed_tasks`. -/
def taskReady (c : List String) (t : ExecutionTask) : Bool :=
  t.status == .pending && t.dependencies.all (fun d => c.contains d)

/-- One wave: execute every ready task (`_execute_parallel_tasks`) and
collect, in list order, the ids and results of those that completed
(`execute_plan`'s completed-bookkeeping loop, lines 228-231). -/
def execWave (executor : ToolExecutor) (c : List String) :
    List ExecutionTask →
      List ExecutionTask × List String × List (String × Option String)
  | [] => ([], [], [])
  | t :: ts =>
      let rest := execWave executor c ts
      if taskReady c t then
        let t' := execute_single_task executor t
        if t'.status == .completed then
          (t' :: rest.1, t'.task_id :: rest.2.1,
           (t'.task_id, t'.result) :: rest.2.2)
        else (t' :: rest.1, rest.2.1, rest.2.2)
      else (t :: rest.1, rest.2.1, rest.2.2)

/-- Python `set.add`. -/
def insertSet (c : List String) (x : String) : List String :=
  if c.contains x then c else c ++ [x]

/-- The `while len(completed_tasks) < len(tasks)` wave loop of
`execute_plan` (`execution_planner.py`, lines 205-231), with fuel (the
loop makes progress every wave, so `tasks.length + 1` fuel suffices —
proved in the C5 development below). -/
def execute_plan_loop (executor : ToolExecutor) :
    Nat → List ExecutionTask → List String →
      List (String × Option String) →
      List ExecutionTask × List String × List (String × Option String)
  | 0, ts, c, rs => (ts, c, rs)
  | fuel + 1, ts, c, rs =>
      if c.length < ts.length then
        if (ts.filter (taskReady c)).isEmpty then
          (ts.map (fun t => if t.status == TaskStatus.pending then
              { t with status := .blocked } else t), c, rs)
        else
          execute_plan_loop executor fuel (execWave executor c ts).1
            ((execWave executor c ts).2.1.foldl insertSet c)
            ((execWave executor c ts).2.2.foldl
              (fun m kv => dictInsert m kv.1 kv.2) rs)
      else (ts, c, rs)

structure PlanResult where
  success : Bool
  completed_tasks : Nat
  total_tasks : Nat
  results : List (String × Option String)
  tasks : List ExecutionTask
deriving DecidableEq

/-- `ExecutionPlanner.execute_plan` (`execution_planner.py`, lines
184-259). -/
def execute_plan (executor : ToolExecutor) (tasks : List ExecutionTask) :
    PlanResult :=
  let r := execute_plan_loop executor (tasks.length + 1) tasks [] []
  { success := r.2.1.length == tasks.length
    completed_tasks := r.2.1.length
    total_tasks := tasks.length
    results := r.2.2
    tasks := r.1 }

/-- Proof helper: what one wave does to a single task. -/
def waveStep (executor : ToolExecutor) (c : List String)
    (t : ExecutionTask) : ExecutionTask :=
  if taskReady c t then execute_single_task executor t else t

/-- The wave's task list is the pointwise "execute if ready" map. -/
theorem execWave_fst (executor : ToolExecutor) (c : List String) :
    ∀ ts : List ExecutionTask,
      (execWave executor c ts).1 = ts.map (waveStep executor c) := by
  intro ts
  induction ts with
  | nil => rfl
  | cons t ts ih =>
      simp only [execWave, List.map_cons, waveStep]
      by_cases hr : taskReady c t
      · rw [if_pos hr, if_pos hr]
        by_cases hc : (execute_single_task executor t).status ==
            TaskStatus.completed
        · rw [if_pos hc]
          exact congrArg _ ih
        · rw [if_neg hc]
          exact congrArg _ ih
      · rw [if_neg hr, if_neg hr]
        exact congrArg _ ih

/-- The wave's new completed ids are exactly the ids of the tasks that
were ready and whose execution completed, in task order. -/
theorem execWave_ids (executor : ToolExecutor) (c : List String) :
    ∀ ts : List ExecutionTask,
      (execWave executor c ts).2.1 = (ts.filter (fun t =>
        taskReady c t &&
          ((execute_single_task executor t).status ==
            TaskStatus.completed))).map (·.task_id) := by
  intro ts
  induction ts with
  | nil => rfl
  | cons t ts ih =>
      simp only [execWave, List.filter_cons]
      by_cases hr : taskReady c t
      · by_cases hc : (execute_single_task executor t).status ==
            TaskStatus.completed
        · rw [if_pos hr, if_pos hc]
          simp only [hr, hc, Bool.and_self, if_true, List.map_cons]
          rw [ih]
          have hid : (execute_single_task executor t).task_id =
              t.task_id := by
            unfold execute_single_task
            cases executor t.operation t.parameters <;> rfl
          rw [hid]
        · rw [if_pos hr, if_neg hc]
          simp only [hr, Bool.true_and]
          rw [if_neg (by simpa using hc)]
          exact ih
      · rw [if_neg hr]
        simp only [hr, Bool.false_and, if_false]
        rw [if_neg (by simp)]
        exact ih

/-- Executing a single task keeps its id and dependencies. -/
theorem execute_single_task_id_deps (executor : ToolExecutor)
    (t : ExecutionTask) :
    (execute_single_task executor t).task_id = t.task_id ∧
    (execute_single_task executor t).dependencies = t.dependencies := by
  unfold execute_single_task
  cases executor t.operation t.parameters <;> exact ⟨rfl, rfl⟩

/-- Executing a single task always lands in `completed` or `failed`. -/
theorem execute_single_task_status (executor : ToolExecutor)
    (t : ExecutionTask) :
    (execute_single_task executor t).status = .completed ∨
    (execute_single_task executor t).status = .failed := by
  unfold execute_single_task
  cases executor t.operation t.parameters
  · exact Or.inr rfl
  · exact Or.inl rfl

theorem mem_foldl_insertSet (l : List String) :
    ∀ (c : List String) (x : String),
      x ∈ l.foldl insertSet c ↔ x ∈ c ∨ x ∈ l := by
  induction l with
  | nil => intro c x; simp
  | cons a as ih =>
      intro c x
      rw [List.foldl_cons, ih]
      unfold insertSet
      by_cases ha : c.contains a
      · rw [if_pos ha]
        have hac : a ∈ c := by simpa using ha
        constructor
        · rintro (h | h)
          · exact Or.inl h
          · exact Or.inr (List.mem_cons_of_mem _ h)
        · rintro (h | h)
          · exact Or.inl h
          · rcases List.mem_cons.mp h with rfl | h
            · exact Or.inl hac
            · exact Or.inr h
      · rw [if_neg ha]
        simp only [List.mem_append, List.mem_singleton, List.mem_cons]
        tauto

theorem nodup_foldl_insertSet (l : List String) :
    ∀ c : List String, c.Nodup → (l.foldl insertSet c).Nodup := by
  induction l with
  | nil => intro c hc; exact hc
  | cons a as ih =>
      intro c hc
      rw [List.foldl_cons]
      apply ih
      unfold insertSet
      by_cases ha : c.contains a
      · rw [if_pos ha]; exact hc
      · rw [if_neg ha]
        have : a ∉ c := by simpa using ha
        simp [List.nodup_append, hc, this]

theorem waveStep_task_id (executor : ToolExecutor) (c : List String)
    (t : ExecutionTask) :
    (waveStep executor c t).task_id = t.task_id := by
  unfold waveStep
  by_cases hr : taskReady c t
  · rw [if_pos hr]
    exact (execute_single_task_id_deps executor t).1
  · rw [if_neg hr]

theorem waveStep_deps (executor : ToolExecutor) (c : List String)
    (t : ExecutionTask) :
    (waveStep executor c t).dependencies = t.dependencies := by
  unfold waveStep
  by_cases hr : taskReady c t
  · rw [if_pos hr]
    exact (execute_single_task_id_deps executor t).2
  · rw [if_neg hr]

/-- A non-pending task is never ready. -/
theorem taskReady_false_of_not_pending (c : List String)
    (t : ExecutionTask) (h : t.status ≠ .pending) :
    taskReady c t = false := by
  unfold taskReady
  have : (t.status == TaskStatus.pending) = false := by
    simpa using h
  rw [this, Bool.false_and]

/-- A step never leaves a task `pending` unless it was pending and not
ready, and never leaves it `running`. -/
theorem waveStep_pending (executor : ToolExecutor) (c : List String)
    (t : ExecutionTask) (h : (waveStep executor c t).status = .pending) :
    waveStep executor c t = t ∧ t.status = .pending ∧
      taskReady c t = false := by
  unfold waveStep at *
  by_cases hr : taskReady c t
  · rw [if_pos hr] at h
    rcases execute_single_task_status executor t with hs | hs <;>
      rw [hs] at h <;> cases h
  · rw [if_neg hr] at h ⊢
    exact ⟨rfl, h, by simpa using hr⟩

theorem waveStep_not_running (executor : ToolExecutor) (c : List String)
    (t : ExecutionTask) (h : t.status ≠ .running) :
    (waveStep executor c t).status ≠ .running := by
  unfold waveStep
  by_cases hr : taskReady c t
  · rw [if_pos hr]
    rcases execute_single_task_status executor t with hs | hs <;>
      rw [hs] <;> intro hc <;> cases hc
  · rw [if_neg hr]
    exact h

/-- A completed task is untouched by a wave. -/
theorem waveStep_of_completed (executor : ToolExecutor) (c : List String)
    (t : ExecutionTask) (h : t.status = .completed) :
    waveStep executor c t = t := by
  unfold waveStep
  rw [taskReady_false_of_not_pending c t (by rw [h]; intro hc; cases hc)]
  rfl

/-- One wave never increases the pending count. -/
theorem countP_pending_waveStep_le (executor : ToolExecutor)
    (c : List String) (ts : List ExecutionTask) :
    (ts.map (waveStep executor c)).countP
        (fun t => t.status == TaskStatus.pending) ≤
      ts.countP (fun t => t.status == TaskStatus.pending) := by
  rw [List.countP_map]
  apply List.countP_mono_left
  intro t _ h
  have hp : (waveStep executor c t).status = .pending := by
    simpa using h
  have := (waveStep_pending executor c t hp).2.1
  simpa using this

/-- A wave with at least one ready task strictly decreases the pending
count. -/
theorem countP_pending_waveStep_lt (executor : ToolExecutor)
    (c : List String) :
    ∀ ts : List ExecutionTask, (∃ t ∈ ts, taskReady c t = true) →
      (ts.map (waveStep executor c)).countP
          (fun t => t.status == TaskStatus.pending) <
        ts.countP (fun t => t.status == TaskStatus.pending) := by
  intro ts
  induction ts with
  | nil => rintro ⟨t, ht, _⟩; cases ht
  | cons t ts ih =>
      rintro ⟨t', ht', hready⟩
      rw [List.map_cons, List.countP_cons, List.countP_cons]
      rcases List.mem_cons.mp ht' with rfl | hmem
      · -- the head is ready: it leaves pending, and was pending
        have hpend : t'.status = .pending := by
          unfold taskReady at hready
          have := Bool.and_elim_left hready
          simpa using this
        have hnotpend : ((waveStep executor c t').status ==
            TaskStatus.pending) = false := by
          unfold waveStep
          rw [if_pos hready]
          rcases execute_single_task_status executor t' with hs | hs <;>
            rw [hs] <;> rfl
        rw [hnotpend]
        have hp : (t'.status == TaskStatus.pending) = true := by
          simp [hpend]
        rw [hp, if_neg (by decide), if_pos rfl]
        have := countP_pending_waveStep_le executor c ts
        omega
      · have hle : (if (waveStep executor c t).status ==
            TaskStatus.pending then 1 else 0) ≤
            (if t.status == TaskStatus.pending then 1 else 0) := by
          by_cases hsp : ((waveStep executor c t).status ==
              TaskStatus.pending) = true
          · have hp : (waveStep executor c t).status = .pending := by
              simpa using hsp
            have := (waveStep_pending executor c t hp).2.1
            simp [hsp, this]
          · simp only [Bool.not_eq_true] at hsp
            rw [hsp]
            simp
        have := ih ⟨t', hmem, hready⟩
        omega

/-- At loop exit (`len(completed) ≥ len(tasks)`), under the invariants
every task has completed. -/
theorem all_completed_of_exit (ts : List ExecutionTask) (c : List String)
    (hnodup : (ts.map (·.task_id)).Nodup) (hcnd : c.Nodup)
    (hI2 : ∀ id, id ∈ c ↔ ∃ t ∈ ts, t.task_id = id ∧
      t.status = .completed)
    (hge : ts.length ≤ c.length) :
    ∀ t ∈ ts, t.status = .completed := by
  classical
  set comp := ts.filter (fun t => t.status == TaskStatus.completed)
    with hcompdef
  have hmem : ∀ id, id ∈ c ↔ id ∈ comp.map (·.task_id) := by
    intro id
    rw [hI2]
    constructor
    · rintro ⟨t, ht, rfl, hc⟩
      exact List.mem_map_of_mem _
        (List.mem_filter.mpr ⟨ht, by simp [hc]⟩)
    · intro h
      obtain ⟨t, htf, hid⟩ := List.mem_map.mp h
      have hf := List.mem_filter.mp htf
      exact ⟨t, hf.1, hid, by simpa using hf.2⟩
  have hcomp_nodup : (comp.map (·.task_id)).Nodup :=
    List.Nodup.sublist (List.Sublist.map _ (List.filter_sublist ts)) hnodup
  have hfin : c.toFinset = (comp.map (·.task_id)).toFinset := by
    apply Finset.ext
    intro id
    simp only [List.mem_toFinset]
    exact hmem id
  have hlen : c.length = comp.length := by
    calc c.length = c.toFinset.card :=
          (List.toFinset_card_of_nodup hcnd).symm
      _ = (comp.map (·.task_id)).toFinset.card := by rw [hfin]
      _ = (comp.map (·.task_id)).length :=
          List.toFinset_card_of_nodup hcomp_nodup
      _ = comp.length := List.length_map _ _
  have hcle : comp.length ≤ ts.length := List.length_filter_le _ _
  have hcnt : ts.countP (fun t => t.status == TaskStatus.completed) =
      ts.length := by
    rw [List.countP_eq_length_filter, ← hcompdef]
    omega
  intro t ht
  have := List.countP_eq_length.mp hcnt t ht
  simpa using this

/-- Master invariant lemma for the wave loop: with distinct task ids, no
`running` task, and a completed-set consistent with the task statuses,
enough fuel drives the loop to an exit state in which ids and
dependencies are preserved, the completed-set is exactly the ids of
completed tasks, no task is left `pending` or `running`, and every
executed task had all its dependencies in the completed-set. -/
theorem execute_plan_loop_master (executor : ToolExecutor) :
    ∀ (fuel : Nat) (ts : List ExecutionTask) (c : List String)
      (rs : List (String × Option String)),
      (ts.map (·.task_id)).Nodup →
      (∀ t ∈ ts, t.status ≠ .running) →
      c.Nodup →
      (∀ id, id ∈ c ↔ ∃ t ∈ ts, t.task_id = id ∧
        t.status = .completed) →
      (∀ t ∈ ts, (t.status = .completed ∨ t.status = .failed) →
        ∀ d ∈ t.dependencies, d ∈ c) →
      ts.countP (fun t => t.status == TaskStatus.pending) < fuel →
      ((execute_plan_loop executor fuel ts c rs).1.map
          (fun t => (t.task_id, t.dependencies)) =
        ts.map (fun t => (t.task_id, t.dependencies))) ∧
      (execute_plan_loop executor fuel ts c rs).2.1.Nodup ∧
      (∀ id, id ∈ (execute_plan_loop executor fuel ts c rs).2.1 ↔
        ∃ t ∈ (execute_plan_loop executor fuel ts c rs).1,
          t.task_id = id ∧ t.status = .completed) ∧
      (∀ t ∈ (execute_plan_loop executor fuel ts c rs).1,
        t.status ≠ .pending ∧ t.status ≠ .running) ∧
      (∀ t ∈ (execute_plan_loop executor fuel ts c rs).1,
        (t.status = .completed ∨ t.status = .failed) →
        ∀ d ∈ t.dependencies,
          d ∈ (execute_plan_loop executor fuel ts c rs).2.1) := by
  intro fuel
  induction fuel with
  | zero => intro ts c rs _ _ _ _ _ hfuel; omega
  | succ n ih =>
      intro ts c rs hnodup hnorun hcnd hI2 hI3 hfuel
      by_cases hcl : c.length < ts.length
      · by_cases hready : (ts.filter (taskReady c)).isEmpty
        · -- no ready task: the loop marks every pending task blocked
          have hres : execute_plan_loop executor (n + 1) ts c rs =
              (ts.map (fun t => if t.status == TaskStatus.pending then
                { t with status := .blocked } else t), c, rs) := by
            rw [execute_plan_loop, if_pos hcl, if_pos hready]
          rw [hres]
          refine ⟨?_, hcnd, ?_, ?_, ?_⟩
          · rw [List.map_map]
            apply List.map_congr_left
            intro t _
            by_cases hp : (t.status == TaskStatus.pending) = true
            · simp only [Function.comp_apply]
              rw [if_pos hp]
            · simp only [Function.comp_apply]
              rw [if_neg hp]
          · intro id
            rw [hI2]
            constructor
            · rintro ⟨t, ht, rfl, hcomp⟩
              refine ⟨t, ?_, rfl, hcomp⟩
              have hnp : (t.status == TaskStatus.pending) = false := by
                simp [hcomp]
              have : (if t.status == TaskStatus.pending then
                  { t with status := TaskStatus.blocked } else t) = t := by
                rw [hnp]; rfl
              rw [← this]
              exact List.mem_map_of_mem _ ht
            · rintro ⟨t', ht', rfl, hcomp⟩
              obtain ⟨t, ht, hteq⟩ := List.mem_map.mp ht'
              by_cases hp : t.status == TaskStatus.pending
              · rw [if_pos hp] at hteq
                rw [← hteq] at hcomp
                cases hcomp
              · rw [if_neg hp] at hteq
                subst hteq
                exact ⟨t, ht, rfl, hcomp⟩
          · intro t' ht'
            obtain ⟨t, ht, hteq⟩ := List.mem_map.mp ht'
            by_cases hp : t.status == TaskStatus.pending
            · rw [if_pos hp] at hteq
              rw [← hteq]
              refine ⟨?_, ?_⟩ <;> intro h <;> simp at h
            · rw [if_neg hp] at hteq
              subst hteq
              exact ⟨by simpa using hp, hnorun t ht⟩
          · intro t' ht' hexec d hd
            obtain ⟨t, ht, hteq⟩ := List.mem_map.mp ht'
            by_cases hp : t.status == TaskStatus.pending
            · rw [if_pos hp] at hteq
              rw [← hteq] at hexec
              rcases hexec with h | h <;> cases h
            · rw [if_neg hp] at hteq
              subst hteq
              exact hI3 t ht hexec d hd
        · -- a non-empty wave runs and the loop recurses
          have hres : execute_plan_loop executor (n + 1) ts c rs =
              execute_plan_loop executor n (execWave executor c ts).1
                ((execWave executor c ts).2.1.foldl insertSet c)
                ((execWave executor c ts).2.2.foldl
                  (fun m kv => dictInsert m kv.1 kv.2) rs) := by
            rw [execute_plan_loop, if_pos hcl, if_neg hready]
          have hwts : (execWave executor c ts).1 =
              ts.map (waveStep executor c) := execWave_fst executor c ts
          have hids : (execWave executor c ts).1.map (·.task_id) =
              ts.map (·.task_id) := by
            rw [hwts, List.map_map]
            apply List.map_congr_left
            intro t _
            exact waveStep_task_id executor c t
          have hprojeq : (execWave executor c ts).1.map
              (fun t => (t.task_id, t.dependencies)) =
              ts.map (fun t => (t.task_id, t.dependencies)) := by
            rw [hwts, List.map_map]
            apply List.map_congr_left
            intro t _
            simp only [Function.comp]
            rw [waveStep_task_id executor c t, waveStep_deps executor c t]
          have hnodup' : ((execWave executor c ts).1.map
              (·.task_id)).Nodup := by rw [hids]; exact hnodup
          have hnorun' : ∀ t' ∈ (execWave executor c ts).1,
              t'.status ≠ .running := by
            intro t' ht'
            rw [hwts] at ht'
            obtain ⟨t, ht, hteq⟩ := List.mem_map.mp ht'
            rw [← hteq]
            exact waveStep_not_running executor c t (hnorun t ht)
          have hcsub : ∀ id, id ∈ c →
              id ∈ (execWave executor c ts).2.1.foldl insertSet c :=
            fun id h => (mem_foldl_insertSet _ c id).mpr (Or.inl h)
          have hcnd' : ((execWave executor c ts).2.1.foldl
              insertSet c).Nodup := nodup_foldl_insertSet _ c hcnd
          have hI2' : ∀ id,
              id ∈ (execWave executor c ts).2.1.foldl insertSet c ↔
              ∃ t ∈ (execWave executor c ts).1, t.task_id = id ∧
                t.status = .completed := by
            intro id
            rw [mem_foldl_insertSet, execWave_ids, hwts]
            constructor
            · rintro (h | h)
              · obtain ⟨t, ht, hid, hcomp⟩ := (hI2 id).mp h
                refine ⟨waveStep executor c t, List.mem_map_of_mem _ ht,
                  ?_, ?_⟩
                · rw [waveStep_task_id]; exact hid
                · rw [waveStep_of_completed executor c t hcomp]
                  exact hcomp
              · obtain ⟨t, htf, hid⟩ := List.mem_map.mp h
                have hf := List.mem_filter.mp htf
                have hrt : taskReady c t = true :=
                  (Bool.and_eq_true _ _).mp hf.2 |>.1
                have hcomp : (execute_single_task executor t).status =
                    .completed := by
                  have := (Bool.and_eq_true _ _).mp hf.2 |>.2
                  simpa using this
                refine ⟨waveStep executor c t,
                  List.mem_map_of_mem _ hf.1, ?_, ?_⟩
                · rw [waveStep_task_id]; exact hid
                · unfold waveStep
                  rw [if_pos hrt]
                  exact hcomp
            · rintro ⟨t', ht', rfl, hcomp⟩
              obtain ⟨t, ht, hteq⟩ := List.mem_map.mp ht'
              by_cases hrt : taskReady c t
              · right
                have hexeccomp : (execute_single_task executor t).status =
                    .completed := by
                  unfold waveStep at hteq
                  rw [if_pos hrt] at hteq
                  rw [hteq]; exact hcomp
                have : t ∈ ts.filter (fun t => taskReady c t &&
                    ((execute_single_task executor t).status ==
                      TaskStatus.completed)) :=
                  List.mem_filter.mpr ⟨ht, by simp [hrt, hexeccomp]⟩
                have hid : t'.task_id = t.task_id := by
                  rw [← hteq, waveStep_task_id]
                rw [hid]
                exact List.mem_map_of_mem _ this
              · left
                have hteq' : t' = t := by
                  unfold waveStep at hteq
                  rw [if_neg hrt] at hteq
                  exact hteq.symm
                subst hteq'
                exact (hI2 t'.task_id).mpr ⟨t', ht, rfl, hcomp⟩
          have hI3' : ∀ t' ∈ (execWave executor c ts).1,
              (t'.status = .completed ∨ t'.status = .failed) →
              ∀ d ∈ t'.dependencies,
                d ∈ (execWave executor c ts).2.1.foldl insertSet c := by
            intro t' ht' hexec d hd
            rw [hwts] at ht'
            obtain ⟨t, ht, hteq⟩ := List.mem_map.mp ht'
            have hdeps : t'.dependencies = t.dependencies := by
              rw [← hteq, waveStep_deps]
            rw [hdeps] at hd
            by_cases hrt : taskReady c t
            · have : ∀ d' ∈ t.dependencies, c.contains d' = true := by
                have := (Bool.and_eq_true _ _).mp hrt |>.2
                intro d' hd'
                exact (List.all_eq_true.mp this) d' hd'
              exact hcsub d (by simpa using this d hd)
            · have hteq' : t' = t := by
                unfold waveStep at hteq
                rw [if_neg hrt] at hteq
                exact hteq.symm
              subst hteq'
              exact hcsub d (hI3 t' ht hexec d hd)
          have hfuel' : (execWave executor c ts).1.countP
              (fun t => t.status == TaskStatus.pending) < n := by
            have hex : ∃ t ∈ ts, taskReady c t = true := by
              have hne : ts.filter (taskReady c) ≠ [] := by
                intro hnil
                rw [List.isEmpty_iff] at hready
                exact hready hnil
              obtain ⟨t, htf⟩ := List.exists_mem_of_ne_nil _ hne
              have := List.mem_filter.mp htf
              exact ⟨t, this.1, this.2⟩
            have hlt := countP_pending_waveStep_lt executor c ts hex
            rw [hwts]
            omega
          obtain ⟨ih1, ih2, ih3, ih4, ih5⟩ := ih (execWave executor c ts).1
            ((execWave executor c ts).2.1.foldl insertSet c)
            ((execWave executor c ts).2.2.foldl
              (fun m kv => dictInsert m kv.1 kv.2) rs)
            hnodup' hnorun' hcnd' hI2' hI3' hfuel'
          rw [hres]
          exact ⟨by rw [ih1, hprojeq], ih2, ih3, ih4, ih5⟩
      · -- loop exit: everything already completed
        have hres : execute_plan_loop executor (n + 1) ts c rs =
            (ts, c, rs) := by
          rw [execute_plan_loop, if_neg hcl]
        have hall := all_completed_of_exit ts c hnodup hcnd hI2 (by omega)
        rw [hres]
        refine ⟨rfl, hcnd, hI2, ?_, hI3⟩
        intro t ht
        rw [hall t ht]
        refine ⟨?_, ?_⟩ <;> intro h <;> simp at h

/-- Transitive dependence between tasks of a plan (one edge per listed
prerequisite id). -/
inductive DependsOn (ts : List ExecutionTask) :
    ExecutionTask → ExecutionTask → Prop
  | direct {t t' : ExecutionTask} : t ∈ ts → t' ∈ ts →
      t'.task_id ∈ t.dependencies → DependsOn ts t t'
  | trans {t t' t'' : ExecutionTask} : DependsOn ts t t' →
      DependsOn ts t' t'' → DependsOn ts t t''

/-- With distinct ids, a completed-set consistent with the statuses has
exactly one entry per completed task. -/
theorem completed_set_length (ts : List ExecutionTask) (c : List String)
    (hnodup : (ts.map (·.task_id)).Nodup) (hcnd : c.Nodup)
    (hI2 : ∀ id, id ∈ c ↔ ∃ t ∈ ts, t.task_id = id ∧
      t.status = .completed) :
    c.length =
      (ts.filter (fun t => t.status == TaskStatus.completed)).length := by
  classical
  set comp := ts.filter (fun t => t.status == TaskStatus.completed)
    with hcompdef
  have hmem : ∀ id, id ∈ c ↔ id ∈ comp.map (·.task_id) := by
    intro id
    rw [hI2]
    constructor
    · rintro ⟨t, ht, rfl, hc⟩
      exact List.mem_map_of_mem _
        (List.mem_filter.mpr ⟨ht, by simp [hc]⟩)
    · intro h
      obtain ⟨t, htf, hid⟩ := List.mem_map.mp h
      have hf := List.mem_filter.mp htf
      exact ⟨t, hf.1, hid, by simpa using hf.2⟩
  have hcomp_nodup : (comp.map (·.task_id)).Nodup :=
    List.Nodup.sublist (List.Sublist.map _ (List.filter_sublist ts)) hnodup
  have hfin : c.toFinset = (comp.map (·.task_id)).toFinset := by
    apply Finset.ext
    intro id
    simp only [List.mem_toFinset]
    exact hmem id
  calc c.length = c.toFinset.card :=
        (List.toFinset_card_of_nodup hcnd).symm
    _ = (comp.map (·.task_id)).toFinset.card := by rw [hfin]
    _ = (comp.map (·.task_id)).length :=
        List.toFinset_card_of_nodup hcomp_nodup
    _ = comp.length := List.length_map _ _

/-- C5: for an all-pending plan with distinct task ids, a task is
executed only once every dependency has completed (tasks with no
dependencies form exactly the first wave), no task is dropped, every task
that transitively depends on a failed (more generally, non-completed)
task ends the run `blocked`, and the returned success flag is true
exactly when every task completed. -/
theorem C5_execute_plan_dag (executor : ToolExecutor)
    (tasks : List ExecutionTask)
    (hpend : ∀ t ∈ tasks, t.status = .pending)
    (hnodup : (tasks.map (·.task_id)).Nodup) :
    (∀ t ∈ (execute_plan executor tasks).tasks,
      (t.status = .completed ∨ t.status = .failed) →
      ∀ d ∈ t.dependencies, ∃ t' ∈ (execute_plan executor tasks).tasks,
        t'.task_id = d ∧ t'.status = .completed)
    ∧ tasks.filter (taskReady []) =
        tasks.filter (fun t => t.dependencies.isEmpty)
    ∧ (execute_plan executor tasks).tasks.map (·.task_id) =
        tasks.map (·.task_id)
    ∧ (∀ t t', DependsOn (execute_plan executor tasks).tasks t t' →
        t'.status ≠ .completed → t.status = .blocked)
    ∧ ((execute_plan executor tasks).success = true ↔
        ∀ t ∈ (execute_plan executor tasks).tasks,
          t.status = .completed) := by
  have hI2init : ∀ id : String, id ∈ ([] : List String) ↔
      ∃ t ∈ tasks, t.task_id = id ∧ t.status = .completed := by
    intro id
    constructor
    · intro h
      exact absurd h (List.not_mem_nil id)
    · rintro ⟨t, ht, _, hc⟩
      rw [hpend t ht] at hc
      cases hc
  have hI3init : ∀ t ∈ tasks,
      (t.status = .completed ∨ t.status = .failed) →
      ∀ d ∈ t.dependencies, d ∈ ([] : List String) := by
    intro t ht hexec
    rw [hpend t ht] at hexec
    rcases hexec with h | h <;> cases h
  have hfuelinit : tasks.countP (fun t => t.status == TaskStatus.pending) <
      tasks.length + 1 := by
    have := List.countP_le_length (l := tasks)
      (fun t => t.status == TaskStatus.pending)
    omega
  obtain ⟨m1, m2, m3, m4, m5⟩ := execute_plan_loop_master executor
    (tasks.length + 1) tasks [] []
    hnodup (fun t ht => by rw [hpend t ht]; intro h; cases h)
    List.nodup_nil hI2init hI3init hfuelinit
  simp only [execute_plan]
  have hids : (execute_plan_loop executor (tasks.length + 1) tasks
      [] []).1.map (·.task_id) = tasks.map (·.task_id) := by
    have h := congrArg (List.map Prod.fst) m1
    rw [List.map_map, List.map_map] at h
    exact h
  have hnodupL : ((execute_plan_loop executor (tasks.length + 1) tasks
      [] []).1.map (·.task_id)).Nodup := by
    rw [hids]
    exact hnodup
  have hlenL : (execute_plan_loop executor (tasks.length + 1) tasks
      [] []).1.length = tasks.length := by
    have h := congrArg List.length hids
    rw [List.length_map, List.length_map] at h
    exact h
  refine ⟨?_, ?_, hids, ?_, ?_⟩
  · intro t ht hexec d hd
    exact (m3 d).mp (m5 t ht hexec d hd)
  · apply List.filter_congr
    intro t ht
    unfold taskReady
    have hp : (t.status == TaskStatus.pending) = true := by
      simp [hpend t ht]
    rw [hp, Bool.true_and]
    cases t.dependencies with
    | nil => rfl
    | cons d ds => rfl
  · intro t t' hdep
    induction hdep with
    | @direct a b hamem hbmem hdepid =>
        intro hnc
        have hnotin : b.task_id ∉ (execute_plan_loop executor
            (tasks.length + 1) tasks [] []).2.1 := by
          intro hin
          obtain ⟨t'', ht''mem, hid, hcomp⟩ := (m3 _).mp hin
          have heq : t'' = b :=
            List.inj_on_of_nodup_map hnodupL ht''mem hbmem hid
          rw [heq] at hcomp
          exact hnc hcomp
        have hnotexec : ¬(a.status = .completed ∨ a.status = .failed) :=
          fun hexec => hnotin (m5 a hamem hexec b.task_id hdepid)
        obtain ⟨hnp, hnr⟩ := m4 a hamem
        cases hstat : a.status with
        | pending => exact absurd hstat hnp
        | running => exact absurd hstat hnr
        | completed => exact absurd (Or.inl hstat) hnotexec
        | failed => exact absurd (Or.inr hstat) hnotexec
        | blocked => rfl
    | @trans a b c2 h1 h2 ih1 ih2 =>
        intro hnc
        have hmid := ih2 hnc
        apply ih1
        rw [hmid]
        intro h
        cases h
  · have hcl : (execute_plan_loop executor (tasks.length + 1) tasks
        [] []).2.1.length =
        ((execute_plan_loop executor (tasks.length + 1) tasks
          [] []).1.filter
            (fun t => t.status == TaskStatus.completed)).length :=
      completed_set_length _ _ hnodupL m2 m3
    constructor
    · intro hsucc t ht
      have hlen : (execute_plan_loop executor (tasks.length + 1) tasks
          [] []).2.1.length = tasks.length := by
        simpa using hsucc
      have hcnt : (execute_plan_loop executor (tasks.length + 1) tasks
          [] []).1.countP (fun t => t.status == TaskStatus.completed) =
          (execute_plan_loop executor (tasks.length + 1) tasks
            [] []).1.length := by
        rw [List.countP_eq_length_filter]
        omega
      have := List.countP_eq_length.mp hcnt t ht
      simpa using this
    · intro hall
      have hfeq : (execute_plan_loop executor (tasks.length + 1) tasks
          [] []).1.filter (fun t => t.status == TaskStatus.completed) =
          (execute_plan_loop executor (tasks.length + 1) tasks [] []).1 :=
        List.filter_eq_self.mpr (fun t ht => by simp [hall t ht])
      show ((execute_plan_loop executor (tasks.length + 1) tasks
          [] []).2.1.length == tasks.length) = true
      rw [beq_iff_eq, hcl, hfeq, hlenL]

/-- The three-task DAG of the claim's scenario: A and B independent, C
depending on both. -/
def taskA : ExecutionTask :=
  { task_id := "A", operation := "opA", parameters := [],
    dependencies := [] }

def taskB : ExecutionTask :=
  { task_id := "B", operation := "opB", parameters := [],
    dependencies := [] }

def taskC : ExecutionTask :=
  { task_id := "C", operation := "opC", parameters := [],
    dependencies := ["A", "B"] }

/-- An executor that fails exactly on A's operation. -/
def demoExecutor : ToolExecutor :=
  fun op _ => if op = "opA" then .error "boom" else .ok "done"

/-- The embedding at work: with A failing, the run ends with A `failed`,
B `completed`, C `blocked`, and reports failure. -/
theorem execute_plan_demo :
    (execute_plan demoExecutor [taskA, taskB, taskC]).tasks.map
        (·.status) = [.failed, .completed, .blocked] ∧
    (execute_plan demoExecutor [taskA, taskB, taskC]).success = false := by
  constructor
  · rfl
  · rfl

/-- C5 witness: the three-task DAG of the claim satisfies the theorem's
hypotheses, and the first wave is exactly the dependency-free tasks. -/
theorem C5_witness :
    (∀ t ∈ [taskA, taskB, taskC], t.status = .pending) ∧
    [taskA, taskB, taskC].filter (taskReady []) =
      [taskA, taskB, taskC].filter (fun t => t.dependencies.isEmpty) := by
  refine ⟨by decide, ?_⟩
  exact (C5_execute_plan_dag demoExecutor [taskA, taskB, taskC]
    (by decide) (by decide)).2.1

/-!
## Decision engine (`src/src/workflows/decision_engine.py`)

The regular-expression engine (`re`) is external and is abstracted as
oracles: `reSearch` (does a pattern match?), `reNat` (first numeric
capture group), `reFirst` (matched text / first capture group).  The wall
clock's rendered ISO strings are a `DecisionClock` oracle.  `json.loads`
plus the subsequent `.get(...)`-with-default field accesses are the
`parseJson` oracle.
-/

/-- `self.email_search_patterns` (`decision_engine.py`, lines 24-38). -/
def email_search_patterns : List String :=
  ["\\b(email|mail|message)s?\\b",
   "\\b(find|search|show|list|get|retrieve)\\b",
   "\\bfrom\\s+[\\w\\s@\\.]+",
   "\\bto\\s+[\\w\\s@\\.]+",
   "\\bsubject\\b",
   "\\battachment",
   "\\b(inbox|sent|draft|unread)\\b",
   "\\b(today|yesterday|last\\s+\\w+|recent)\\b",
   "\\b(\\d+\\s+days?\\s+ago)\\b",
   "\\bplacement\\s+drive",
   "\\bcompany\\s+visit",
   "\\binterview",
   "\\bmeeting"]

/-- `self.time_patterns` (`decision_engine.py`, lines 40-46). -/
def time_patterns : List String :=
  ["\\b(today|yesterday)\\b",
   "\\blast\\s+(\\d+)\\s+(day|week|month)s?\\b",
   "\\b(\\d+)\\s+(day|week|month)s?\\s+ago\\b",
   "\\bin\\s+the\\s+last\\s+\\d+\\s+(day|week|month)s?\\b",
   "\\brecent\\b"]

def check_email_search_patterns (reSearch : String → String → Bool)
    (query_lower : String) : Bool :=
  email_search_patterns.any (fun p => reSearch p query_lower)

def check_time_patterns (reSearch : String → String → Bool)
    (query_lower : String) : Bool :=
  time_patterns.any (fun p => reSearch p query_lower)

structure TimeConstraint where
  after : Option String
  before : Option String
  description : String
deriving DecidableEq

/-- The wall clock's rendered ISO strings. -/
structure DecisionClock where
  todayStart : String
  yesterdayStart : String
  daysAgoIso : Nat → String

/-- `_extract_time_constraint` (`decision_engine.py`, lines 131-184). -/
def extract_time_constraint (reNat : String → String → Option Nat)
    (clock : DecisionClock) (query : String) : Option TimeConstraint :=
  let query_lower := query.toLower
  if strContains query_lower "today" then
    some { after := some clock.todayStart, before := none,
           description := "today" }
  else if strContains query_lower "yesterday" then
    some { after := some clock.yesterdayStart,
           before := some clock.todayStart, description := "yesterday" }
  else match reNat "last\\s+(\\d+)\\s+days?" query_lower with
  | some days =>
      some { after := some (clock.daysAgoIso days), before := none,
             description := "last " ++ toString days ++ " days" }
  | none =>
      match reNat "(\\d+)\\s+days?\\s+ago" query_lower with
      | some days =>
          some { after := some (clock.daysAgoIso days), before := none,
                 description := toString days ++ " days ago" }
      | none =>
          if strContains query_lower "recent" then
            some { after := some (clock.daysAgoIso 7), before := none,
                   description := "recent (7 days)" }
          else none

/-- `_extract_sender` (`decision_engine.py`, lines 186-198). -/
def extract_sender (reFirst : String → String → Option String)
    (query : String) : Option String :=
  match reFirst "[\\w\\.-]+@[\\w\\.-]+\\.\\w+" query with
  | some m => some m
  | none =>
      match reFirst
        "from\\s+([\\w\\s]+?)(?:\\s+about|\\s+regarding|\\s+with|$)"
        query with
      | some g => some g.trim
      | none => none

def isWordChar (c : Char) : Bool := c.isAlphanum || c == '_'

/-- `re.findall(r'\b\w+\b', s)`: the maximal `\w+` runs. -/
def pyFindWords : List Char → List String
  | [] => []
  | c :: rest =>
      let ws := pyFindWords rest
      if isWordChar c then
        match rest with
        | r :: _ =>
            if isWordChar r then
              match ws with
              | w :: wtail => (String.mk [c] ++ w) :: wtail
              | [] => [String.mk [c]]
            else String.mk [c] :: ws
        | [] => [String.mk [c]]
      else ws

/-- `_extract_keywords` (`decision_engine.py`, lines 200-209). -/
def extract_keywords (query : String) : List String :=
  let stop_words : List String :=
    ["the", "a", "an", "in", "on", "at", "to", "for", "of", "with", "by",
     "from", "about", "show", "get", "find", "list", "me", "my", "i", "we"]
  let words := pyFindWords query.toLower.toList
  (words.filter (fun w => !stop_words.contains w && 2 < w.length)).take 10

/-- The parsed JSON of `_semantic_analysis`, with the downstream
`.get('requires_email_data', False)` / `.get('intent', 'unknown')`
defaults already applied by the `parseJson` oracle. -/
structure SemanticAnalysis where
  requires_email_data : Bool
  intent : String
  specific_info : String
deriving DecidableEq

def semanticAnalysisPrompt (query : String) : String :=
  "Analyze this user query and determine:\n" ++
  "1. Does it require searching through emails? (yes/no)\n" ++
  "2. What is the user's intent? (search_emails, calendar_query, " ++
  "task_management, general_question)\n" ++
  "3. What specific information are they looking for?\n\nQuery: " ++
  query ++
  "\n\nRespond in JSON format:\n\x7b\n" ++
  "    \"requires_email_data\": true/false,\n" ++
  "    \"intent\": \"search_emails\" or \"calendar_query\" or " ++
  "\"task_management\" or \"general_question\",\n" ++
  "    \"specific_info\": \"brief description\"\n\x7d"

/-- `_semantic_analysis` (`decision_engine.py`, lines 211-244): an LLM
raise or a JSON-parse failure falls back to
`{'requires_email_data': True, 'intent': 'search_emails'}`. -/
def semantic_analysis (llm : String → Except String String)
    (parseJson : String → Option SemanticAnalysis) (query : String) :
    SemanticAnalysis :=
  match llm (semanticAnalysisPrompt query) with
  | .error _ =>
      { requires_email_data := true, intent := "search_emails",
        specific_info := "" }
  | .ok resp =>
      match parseJson resp with
      | some a => a
      | none =>
          { requires_email_data := true, intent := "search_emails",
            specific_info := "" }

/-- `_determine_search_scope` (`decision_engine.py`, lines 246-260). -/
def determine_search_scope (has_time_constraint : Bool)
    (extracted_time : Option TimeConstraint) (query_lower : String) :
    String :=
  if extracted_time.isSome then "time_constrained"
  else if has_time_constraint then "recent"
  else if ["all", "every", "entire"].any
      (fun w => strContains query_lower w) then "broad"
  else "normal"

/-- `_calculate_confidence` (`decision_engine.py`, lines 262-276);
binary-float rounding is abstracted into exact rationals. -/
def calculate_confidence (pattern_match : Bool)
    (semantic : SemanticAnalysis) : ℚ :=
  let confidence : ℚ := 1/2
  let confidence := if pattern_match then confidence + 3/10 else confidence
  let confidence := if semantic.requires_email_data then confidence + 1/5
    else confidence
  min confidence 1

/-- `_build_reasoning` (`decision_engine.py`, lines 278-299). -/
def build_reasoning (needs_email_search has_time_constraint : Bool)
    (semantic : SemanticAnalysis) : String :=
  let reasons : List String :=
    (if needs_email_search then ["Query matches email search patterns"]
      else []) ++
    (if has_time_constraint then ["Query has time constraints"] else []) ++
    (if semantic.requires_email_data then
      ["Semantic analysis indicates email data needed"] else []) ++
    ["Intent classified as: " ++ semantic.intent]
  if reasons.isEmpty then "Using default search behavior"
  else String.intercalate "; " reasons

structure QueryAnalysis where
  needs_rag : Bool
  needs_search : Bool
  confidence : ℚ
  time_constraint : Option TimeConstraint
  sender_filter : Option String
  keywords : List String
  search_scope : String
  semantic_intent : String
  reasoning : String

/-- `DecisionEngine.analyze_query` (`decision_engine.py`, lines 48-114).
Every helper is total in the model, so the outer `except` fallback
(needs_rag = needs_search = true, confidence 0.5) is unreachable; the LLM
failure path runs through `_semantic_analysis`'s own catch. -/
def analyze_query (reSearch : String → String → Bool)
    (reNat : String → String → Option Nat)
    (reFirst : String → String → Option String) (clock : DecisionClock)
    (llm : String → Except String String)
    (parseJson : String → Option SemanticAnalysis) (query : String) :
    QueryAnalysis :=
  let query_lower := query.toLower
  let needs_email_search := check_email_search_patterns reSearch
    query_lower
  let has_time_constraint := check_time_patterns reSearch query_lower
  let extracted_time := extract_time_constraint reNat clock query
  let extracted_sender := extract_sender reFirst query
  let extracted_keywords := extract_keywords query
  let semantic := semantic_analysis llm parseJson query
  let needs_rag := needs_email_search || semantic.requires_email_data
  { needs_rag := needs_rag
    needs_search := needs_rag
    confidence := calculate_confidence needs_email_search semantic
    time_constraint := extracted_time
    sender_filter := extracted_sender
    keywords := extracted_keywords
    search_scope := determine_search_scope has_time_constraint
      extracted_time query_lower
    semantic_intent := semantic.intent
    reasoning := build_reasoning needs_email_search has_time_constraint
      semantic }

/-- C7: if the semantic-analysis LLM call raises, `analyze_query` still
returns `needs_rag = true` and `needs_search = true`: the failure is
caught inside `_semantic_analysis`, whose fallback sets
`requires_email_data = True`, which is or-ed into both flags — no
exception reaches the caller (the embedding is total). -/
theorem C7_analyze_query_fail_open (reSearch : String → String → Bool)
    (reNat : String → String → Option Nat)
    (reFirst : String → String → Option String) (clock : DecisionClock)
    (llm : String → Except String String)
    (parseJson : String → Option SemanticAnalysis) (query : String)
    (err : String) (hllm : llm (semanticAnalysisPrompt query) = .error err) :
    (analyze_query reSearch reNat reFirst clock llm parseJson
      query).needs_rag = true ∧
    (analyze_query reSearch reNat reFirst clock llm parseJson
      query).needs_search = true := by
  have hsem : semantic_analysis llm parseJson query =
      { requires_email_data := true, intent := "search_emails",
        specific_info := "" } := by
    unfold semantic_analysis
    rw [hllm]
  constructor <;>
    · show (check_email_search_patterns reSearch query.toLower ||
        (semantic_analysis llm parseJson query).requires_email_data) = true
      rw [hsem]
      exact Bool.or_true _

/-- C7 witness: a concrete always-raising LLM oracle. -/
theorem C7_witness :
    ((fun _ : String => (.error "service down" : Except String String))
        (semanticAnalysisPrompt "what mail came in?") =
      .error "service down") ∧
    (analyze_query (fun _ _ => false) (fun _ _ => none) (fun _ _ => none)
      ⟨"t0", "y0", fun _ => "d"⟩ (fun _ => .error "service down")
      (fun _ => none) "what mail came in?").needs_rag = true := by
  refine ⟨rfl, ?_⟩
  exact (C7_analyze_query_fail_open (fun _ _ => false) (fun _ _ => none)
    (fun _ _ => none) ⟨"t0", "y0", fun _ => "d"⟩
    (fun _ => .error "service down") (fun _ => none)
    "what mail came in?" "service down" rfl).1

/-!
## Memory manager and conversation recall
(`src/src/memory/memory_manager.py`,
`src/src/workflows/autonomous_agent.py`)
-/

structure UserPatterns where
  query_patterns : List (String × Nat)
  usage_hours : List (String × Nat)
  frequent_contacts : List (String × Nat)
deriving DecidableEq

/-- `MemoryManager._extract_patterns` (`memory_manager.py`, lines
94-145); `hour` is the wall-clock hour and `context_sender` the optional
`context['sender']`. -/
def extract_patterns (user_query : String) (hour : Nat)
    (context_sender : Option String) (pat : UserPatterns) : UserPatterns :=
  let keywords : List String :=
    ["find", "search", "show", "list", "get", "check", "schedule"]
  let query_lower := user_query.toLower
  let qp := keywords.foldl
    (fun m kw => if strContains query_lower kw then
      dictInsert m kw ((dictGet? m kw).getD 0 + 1) else m)
    pat.query_patterns
  let uh := dictInsert pat.usage_hours (toString hour)
    ((dictGet? pat.usage_hours (toString hour)).getD 0 + 1)
  let fc := match context_sender with
    | some sender => dictInsert pat.frequent_contacts sender
        ((dictGet? pat.frequent_contacts sender).getD 0 + 1)
    | none => pat.frequent_contacts
  { query_patterns := qp, usage_hours := uh, frequent_contacts := fc }

/-- The state one `MemoryManager` owns. -/
structure MemoryManagerState where
  vector_store : VectorStore
  conversation : ConversationMemoryState
  patterns : UserPatterns
deriving DecidableEq

/-- `MemoryManager.learn_from_interaction` (`memory_manager.py`, lines
66-92): the turn goes to Conversation Memory only and the usage patterns
are updated — the vector store is deliberately not written
(`VectorStore.add_conversation` has no caller on this path). -/
def learn_from_interaction (threshold : Nat) (st : MemoryManagerState)
    (user_query assistant_response now : String) (hour : Nat)
    (context_sender : Option String) : MemoryManagerState :=
  let conv := add_message threshold st.conversation "user" user_query now
  let conv := add_message threshold conv "assistant" assistant_response now
  { vector_store := st.vector_store
    conversation := conv
    patterns := extract_patterns user_query hour context_sender
      st.patterns }

/-- `MemoryManager.get_relevant_memory` (`memory_manager.py`, lines
187-205): a plain semantic search with no metadata filter — in
particular, no `content_type` restriction. -/
def get_relevant_memory (embedQuery : String → Except String (List Int))
    (dist : VectorDoc → Nat) (store : VectorStore) (query : String)
    (n_results : Nat := 5) : QueryResult :=
  semantic_search embedQuery dist store query n_results none

def noRecallMsg : String := "No relevant previous conversation found."

/-- `AutonomousEmailAgent._recall_conversation`
(`autonomous_agent.py`, lines 532-549). -/
def recall_conversation (embedQuery : String → Except String (List Int))
    (dist : VectorDoc → Nat) (store : VectorStore) (query : String) :
    String :=
  let results := get_relevant_memory embedQuery dist store query 3
  if results.documents.isEmpty || (results.documents.headD []).isEmpty
  then noRecallMsg
  else
    String.intercalate "\n"
      (((results.documents.headD []).take 3).enum.map
        (fun ic => "Previous discussion " ++ toString (ic.1 + 1) ++ ": " ++
          pyTakeStr ic.2 200 ++ "..."))

/-- Vector-store contents reachable through the normal indexing and
query-handling paths: nothing but `_index_email_with_metadata` inserts
(and collection wipes) ever runs — `add_conversation` has no caller. -/
inductive ReachableStore : VectorStore → Prop
  | empty : ReachableStore []
  | index (embedder : String → List Int) (uuid : Nat → String)
      (now : String) (s : VectorStore) (p : ParsedEmail)
      (summary : String) : ReachableStore s →
      ReachableStore (index_email_with_metadata embedder uuid now s p
        summary)
  | clear (s : VectorStore) : ReachableStore s →
      ReachableStore (clear_all_data s)

/-- Every document of a store only ever touched by email indexing carries
`content_type = "email"`. -/
def emailOnlyStore (s : VectorStore) : Prop :=
  ∀ d ∈ s, dictGet? d.metadata "content_type" = some (.str "email")

/-- The document `add_email` appends carries `content_type = "email"`,
as long as the additional metadata does not override that key. -/
theorem add_email_content_type (embedder : String → List Int)
    (uuidHex now : String) (store : VectorStore)
    (eid subject body sender recipients date : String)
    (labels : List String) (attachments : List Attachment)
    (tid : Option String) (adds : List (String × PyValue))
    (h : ∀ kv ∈ adds, kv.1 ≠ "content_type") :
    ∃ d : VectorDoc,
      add_email embedder uuidHex now store eid subject body sender
        recipients date labels attachments tid adds = store ++ [d] ∧
      dictGet? d.metadata "content_type" = some (.str "email") := by
  refine ⟨_, rfl, ?_⟩
  show dictGet? (mergeAdditional _ adds) "content_type" =
    some (.str "email")
  rw [mergeAdditional_lookup_ne adds "content_type" _ h]
  by_cases hatt : attachments.isEmpty
  · simp only [hatt, if_true]
    rfl
  · simp only [hatt, if_false]
    rfl

/-- Folding store inserts that preserve `emailOnlyStore` preserves it. -/
theorem emailOnly_foldl {β : Type} (f : VectorStore → β → VectorStore)
    (hf : ∀ st ic, emailOnlyStore st → emailOnlyStore (f st ic)) :
    ∀ (l : List β) (st : VectorStore),
      emailOnlyStore st → emailOnlyStore (l.foldl f st) := by
  intro l
  induction l with
  | nil => intro st h; exact h
  | cons x xs ih =>
      intro st h
      rw [List.foldl_cons]
      exact ih (f st x) (hf st x h)

theorem emailOnly_append_doc {s : VectorStore} {d : VectorDoc}
    (hs : emailOnlyStore s)
    (hd : dictGet? d.metadata "content_type" = some (.str "email")) :
    emailOnlyStore (s ++ [d]) := by
  intro d' hd'
  rcases List.mem_append.mp hd' with h | h
  · exact hs d' h
  · rw [List.mem_singleton.mp h]
    exact hd

/-- Email indexing preserves the email-only invariant. -/
theorem index_email_emailOnly (embedder : String → List Int)
    (uuid : Nat → String) (now : String) (store : VectorStore)
    (p : ParsedEmail) (summary : String) (h : emailOnlyStore store) :
    emailOnlyStore
      (index_email_with_metadata embedder uuid now store p summary) := by
  have hkeysEnh : ∀ kv ∈ enhanced_metadata p summary,
      kv.1 ≠ "content_type" := by
    intro kv hm
    have hk : kv.1 ∈ (enhanced_metadata p summary).map Prod.fst :=
      List.mem_map_of_mem _ hm
    rw [enhanced_metadata_keys] at hk
    exact fun heq => absurd (heq ▸ hk) (by decide)
  unfold index_email_with_metadata
  by_cases hbig : 1500 < p.body_text.length
  · rw [if_pos hbig]
    apply emailOnly_foldl
    intro st ic hst
    obtain ⟨d, hd, hct⟩ := add_email_content_type embedder (uuid ic.1) now
      st (p.id ++ "_chunk_" ++ toString ic.1) p.subject ic.2 p.sender
      p.«to» p.date p.labels p.attachments (some p.thread_id)
      (pyDictMerge (enhanced_metadata p summary)
        [("is_chunked", .bool true),
         ("chunk_index", .int ic.1),
         ("total_chunks",
           .int ((chunk_text p.body_text.toList 1200 150).map
             String.mk).length),
         ("original_email_id", .str p.id),
         ("chunk_word_count", .int (pyWordCount ic.2))])
      (by
        intro kv hkv
        rcases pyDictMerge_mem _ _ kv hkv with hh | hh
        · rw [enhanced_metadata_keys] at hh
          exact fun heq => absurd (heq ▸ hh) (by decide)
        · simp only [List.map_cons, List.map_nil] at hh
          exact fun heq => absurd (heq ▸ hh) (by decide))
    · rw [hd]
      exact emailOnly_append_doc hst hct
    · exact h
  · rw [if_neg hbig]
    obtain ⟨d, hd, hct⟩ := add_email_content_type embedder (uuid 0) now
      store p.id p.subject p.body_text p.sender p.«to» p.date p.labels
      p.attachments (some p.thread_id) _ hkeysEnh
    rw [hd]
    exact emailOnly_append_doc h hct

/-- Any normally reachable store holds email documents only. -/
theorem reachable_emailOnly {s : VectorStore} (h : ReachableStore s) :
    emailOnlyStore s := by
  induction h with
  | empty => intro d hd; cases hd
  | index embedder uuid now s p summary _ ih =>
      exact index_email_emailOnly embedder uuid now s p summary ih
  | clear s _ _ => intro d hd; cases hd

/-- C10: `learn_from_interaction` never writes the vector store (no
normal query path calls `add_conversation`); `get_relevant_memory` is an
unfiltered semantic search, and since every reachable store holds only
email documents, every document feeding `recall_conversation`'s rendered
snippets is a stored email document — a stored conversation turn is never
returned; on an empty store the "nothing found" message is returned. -/
theorem C10_recall_draws_from_email_documents
    (embedQuery : String → Except String (List Int))
    (dist : VectorDoc → Nat) (store : VectorStore) (query : String)
    (threshold hour : Nat) (st : MemoryManagerState)
    (uq ar now : String) (ctx : Option String)
    (hreach : ReachableStore store) :
    ((learn_from_interaction threshold st uq ar now hour
        ctx).vector_store = st.vector_store)
    ∧ (store = [] →
        recall_conversation embedQuery dist store query = noRecallMsg)
    ∧ (∀ doc ∈ (get_relevant_memory embedQuery dist store query
          3).documents.headD [],
        ∃ d ∈ store, d.document = doc ∧
          dictGet? d.metadata "content_type" = some (.str "email")) := by
  refine ⟨rfl, ?_, ?_⟩
  · intro hempty
    subst hempty
    rfl
  · intro doc hdoc
    unfold get_relevant_memory semantic_search at hdoc
    by_cases hlen : store.length = 0
    · rw [if_pos hlen] at hdoc
      simp [emptyQueryResult] at hdoc
    · rw [if_neg hlen] at hdoc
      cases hq : embedQuery query with
      | error e =>
          rw [hq] at hdoc
          simp [emptyQueryResult] at hdoc
      | ok emb =>
          rw [hq] at hdoc
          simp only [collectionQuery, List.headD_cons] at hdoc
          obtain ⟨d, hdmem, hddoc⟩ := List.mem_map.mp hdoc
          have hdstore : d ∈ store := List.mem_of_mem_take hdmem
          exact ⟨d, hdstore, hddoc, reachable_emailOnly hreach d hdstore⟩

/-- C10 witness: the empty store is reachable and yields the "nothing
found" message. -/
theorem C10_witness :
    recall_conversation (fun _ => .ok []) (fun _ => 0) [] "budget" =
      noRecallMsg := by
  exact (C10_recall_draws_from_email_documents (fun _ => .ok [])
    (fun _ => 0) [] "budget" 20 0
    ⟨[], initialConversationMemory, ⟨[], [], []⟩⟩ "q" "a" "t" none
    ReachableStore.empty).2.1 rfl

end WorkspaceAgent
